import Mathlib

/-!
Verification of the movie-metadata cleaning pipeline
(src/movies_cleaning.py).

The pipeline operates on pandas DataFrames.  We embed a DataFrame as an
ordered list of named columns; a cell is either missing (NaN) or holds a
value, which is a string or an (exact rational) number.  Each cleaning
stage of `clean_dataframe` is translated to a Lean function on this
table type, and the stages are composed into `clean_dataframe` in the
source order:

  1. drop duplicate rows                (df.drop_duplicates())
  2. text normalisation                 (astype(str), replace newline, strip)
  3. YEAR 4-digit extraction            (str.extract followed by to_numeric)
  4. VOTES coercion                     (remove commas, to_numeric)
  5. Gross coercion                     (keep digits and periods, to_numeric)
  6. numeric median imputation          (safe_median_fill)
  7. GENRE mode imputation
  8. num_stars / num_genres derivation
  9. RunTime 99th-percentile clipping
 10. min-max scaling of numeric columns

Floating point is modelled with exact rationals; Python string rendering
of numbers is modelled by a decimal printer (`decStr`).
-/

set_option autoImplicit false

namespace MoviesCleaning

/-- A non-missing cell value: a piece of text or a number.  Pandas floats
are modelled as exact rationals. -/
inductive Val where
  | str (s : String)
  | num (q : ℚ)
deriving DecidableEq, Repr

/-- A cell of a DataFrame: `none` models NaN / missing. -/
abbrev Cell := Option Val

/-- A named column of a DataFrame. -/
structure Col where
  name : String
  cells : List Cell
deriving DecidableEq, Repr

/-- A DataFrame: an ordered list of named columns. -/
structure DF where
  cols : List Col
deriving DecidableEq, Repr

/-- Look up a column by name (first match), returning its cells. -/
def getCol (df : DF) (n : String) : Option (List Cell) :=
  (df.cols.find? (fun c => c.name == n)).map (fun c => c.cells)

/-- Whether a column with the given name is present (`col in df.columns`). -/
def hasCol (df : DF) (n : String) : Bool :=
  df.cols.any (fun c => c.name == n)

/-- Pandas column assignment `df[n] = cells`: replace the cells of the
column named `n` if present, otherwise append a new column at the end. -/
def putCol (df : DF) (n : String) (cs : List Cell) : DF :=
  if df.cols.any (fun c => c.name == n) then
    ⟨df.cols.map (fun c => if c.name == n then ⟨c.name, cs⟩ else c)⟩
  else
    ⟨df.cols ++ [⟨n, cs⟩]⟩

/-- Rebuild every column from its current content, keeping names and
order.  Used to express per-column transformations. -/
def mapCols (df : DF) (f : Col → List Cell) : DF :=
  ⟨df.cols.map (fun c => ⟨c.name, f c⟩)⟩

/-- Apply a cell-list transformation to the column named `n`, leaving the
other columns unchanged. -/
def mapNamed (df : DF) (n : String) (f : List Cell → List Cell) : DF :=
  mapCols df (fun c => if c.name == n then f c.cells else c.cells)

/-! ### Python/pandas string rendering of cells (`astype(str)`) -/

/-- Decimal digits of the fraction `n / d` (with `n < d`), up to `fuel`
digits.  Used to render rationals the way Python renders floats. -/
def fracDigits : Nat → Nat → Nat → String
  | _, _, 0 => ""
  | n, d, fuel + 1 =>
    if n = 0 then ""
    else toString (n * 10 / d) ++ fracDigits (n * 10 % d) d fuel

/-- Decimal rendering of a rational, approximating Python's float `str`:
an integer value renders with a trailing `.0`, other values with up to 17
fractional digits. -/
def decStr (q : ℚ) : String :=
  let sgn := if q < 0 then "-" else ""
  let n := q.num.natAbs
  let i := n / q.den
  let r := n % q.den
  if r = 0 then sgn ++ toString i ++ ".0"
  else sgn ++ toString i ++ "." ++ fracDigits r q.den 17

/-- Python `str(x)` on a cell, as performed by `astype(str)`: a missing
value renders as the literal string "nan". -/
def pyStr : Cell → String
  | none => "nan"
  | some (Val.str s) => s
  | some (Val.num q) => decStr q

/-! ### `pd.to_numeric(..., errors='coerce')` on strings

Modelled on the plain decimal fragment: optional sign, digits with at
most one decimal point, at least one digit.  Anything else (including
the string "nan", which pandas turns into NaN) coerces to missing.
Scientific notation and infinities are not modelled; the pipeline never
produces them. -/

/-- Numeric value of a list of decimal digit characters. -/
def digitsVal (cs : List Char) : Nat :=
  cs.foldl (fun a c => 10 * a + (c.toNat - 48)) 0

/-- Parse an unsigned decimal: digits with an optional single point,
at least one digit in total. -/
def parseUnsigned (cs : List Char) : Option ℚ :=
  let intPart := cs.takeWhile Char.isDigit
  let rest := cs.dropWhile Char.isDigit
  match rest with
  | [] =>
    if intPart.isEmpty then none
    else some (digitsVal intPart)
  | '.' :: frac =>
    if frac.all Char.isDigit && !(intPart.isEmpty && frac.isEmpty) then
      some ((digitsVal intPart : ℚ) + (digitsVal frac : ℚ) / (10 : ℚ) ^ frac.length)
    else none
  | _ => none

/-- Parse a signed decimal. -/
def parseSigned (cs : List Char) : Option ℚ :=
  match cs with
  | [] => none
  | c :: rest =>
    if c = '-' then (parseUnsigned rest).map (fun q => -q)
    else if c = '+' then parseUnsigned rest
    else parseUnsigned (c :: rest)

/-- Drop whitespace from both ends of a character list. -/
def trimChars (cs : List Char) : List Char :=
  ((cs.dropWhile Char.isWhitespace).reverse.dropWhile Char.isWhitespace).reverse

/-- Model of `pd.to_numeric(s, errors='coerce')` on one string:
surrounding whitespace is ignored; unparseable strings become missing. -/
def toNumeric (s : String) : Option ℚ :=
  parseSigned (trimChars s.toList)

/-! ### Rows, for duplicate removal -/

/-- Number of rows of a DataFrame (length of its first column; all
columns of a well-formed table have this length). -/
def nrows (df : DF) : Nat :=
  ((df.cols.head?).map (fun c => c.cells.length)).getD 0

/-- Row `i` of a DataFrame: the `i`-th cell of each column in order. -/
def rowAt (df : DF) (i : Nat) : List Cell :=
  df.cols.map (fun c => c.cells.getD i none)

/-- The rows of a DataFrame, in order. -/
def toRows (df : DF) : List (List Cell) :=
  (List.range (nrows df)).map (rowAt df)

/-- Rebuild a DataFrame from column names and a list of rows. -/
def fromRows (names : List String) (rows : List (List Cell)) : DF :=
  ⟨(List.range names.length).map
    (fun j => ⟨names.getD j "", rows.map (fun r => r.getD j none)⟩)⟩

/-- Keep the rows that have not occurred before (pandas keeps the first
occurrence of each duplicated row); `seen` accumulates rows already kept. -/
def keepFirsts (seen : List (List Cell)) : List (List Cell) → List (List Cell)
  | [] => []
  | r :: rs =>
    if r ∈ seen then keepFirsts seen rs
    else r :: keepFirsts (r :: seen) rs

/-- Stage 1, `df = df.drop_duplicates()`: remove rows that duplicate an
earlier row across all columns, keeping first occurrences in order. -/
def dropDuplicates (df : DF) : DF :=
  fromRows (df.cols.map (fun c => c.name)) (keepFirsts [] (toRows df))

/-! ### Stage 2: text normalisation -/

/-- The four text-role columns of the pipeline. -/
def textCols : List String := ["MOVIES", "GENRE", "ONE-LINE", "STARS"]

/-- Replace each newline character by a space. -/
def replaceNl (cs : List Char) : List Char :=
  cs.map (fun c => if c = '\n' then ' ' else c)

/-- One cell of `astype(str).str.replace(newline, space).str.strip()`:
string-coerce, replace newlines by spaces, trim surrounding whitespace.
The result is never missing. -/
def normCell (c : Cell) : Cell :=
  some (Val.str (String.mk (trimChars (replaceNl (pyStr c).toList))))

/-- One iteration of the text-normalisation loop: normalise the column
if it is present. -/
def normStep (d : DF) (col : String) : DF :=
  if hasCol d col then mapNamed d col (fun cs => cs.map normCell) else d

/-- Stage 2: normalise each of the four text columns that is present. -/
def textNormStage (df : DF) : DF :=
  textCols.foldl normStep df

/-! ### Stage 3: YEAR extraction -/

/-- Whether a character list starts with three decimal digits. -/
def threeDigits : List Char → Bool
  | b :: c :: d :: _ => b.isDigit && c.isDigit && d.isDigit
  | _ => false

/-- First position of four consecutive decimal digits in a character
list, returning those four digits — the leftmost match of the regular
expression used by `str.extract` on the YEAR column. -/
def firstFourDigits : List Char → Option (List Char)
  | [] => none
  | a :: rest =>
    if a.isDigit && threeDigits rest then some (a :: rest.take 3)
    else firstFourDigits rest

/-- One YEAR cell: extract the first four consecutive digits of the
string-coerced cell, then `to_numeric` the extracted text (a failed
extraction is NaN, which `to_numeric` keeps missing). -/
def yearCell (c : Cell) : Cell :=
  match firstFourDigits (pyStr c).toList with
  | some ds => (toNumeric (String.mk ds)).map Val.num
  | none => none

/-- Stage 3: the YEAR column, if present. -/
def yearStage (df : DF) : DF :=
  if hasCol df "YEAR" then mapNamed df "YEAR" (fun cs => cs.map yearCell) else df

/-! ### Stage 4: VOTES coercion -/

/-- One VOTES cell: string-coerce, delete commas (the replacement of
a comma by the empty string), `to_numeric`. -/
def votesCell (c : Cell) : Cell :=
  (toNumeric (String.mk ((pyStr c).toList.filter (fun ch => ch ≠ ',')))).map Val.num

/-- Stage 4: the VOTES column, if present. -/
def votesStage (df : DF) : DF :=
  if hasCol df "VOTES" then mapNamed df "VOTES" (fun cs => cs.map votesCell) else df

/-! ### Stage 5: Gross coercion -/

/-- Delete every character that is not a decimal digit or a period
(the replacement of `[^0-9.]` by the empty string). -/
def stripNonNumChars (s : String) : String :=
  String.mk (s.toList.filter (fun ch => ch.isDigit || ch == '.'))

/-- One Gross cell: string-coerce, keep digits and periods, `to_numeric`;
an unparseable remainder is missing, never zero. -/
def grossCell (c : Cell) : Cell :=
  (toNumeric (stripNonNumChars (pyStr c))).map Val.num

/-- Stage 5: the Gross column, if present. -/
def grossStage (df : DF) : DF :=
  if hasCol df "Gross" then mapNamed df "Gross" (fun cs => cs.map grossCell) else df

/-! ### Stage 6: numeric median imputation -/

/-- The numeric values of a column (cells holding a number). -/
def numVals (cells : List Cell) : List ℚ :=
  cells.filterMap (fun c =>
    match c with
    | some (Val.num q) => some q
    | _ => none)

/-- Whether the column holds any string cell (an object column on which
pandas numeric reductions raise). -/
def hasStrCell (cells : List Cell) : Bool :=
  cells.any (fun c =>
    match c with
    | some (Val.str _) => true
    | _ => false)

/-- Insert into a sorted list of rationals. -/
def insertSorted (x : ℚ) : List ℚ → List ℚ
  | [] => [x]
  | y :: ys => if x ≤ y then x :: y :: ys else y :: insertSorted x ys

/-- Sort a list of rationals ascending. -/
def sortQ (xs : List ℚ) : List ℚ :=
  xs.foldr insertSorted []

/-- Pandas `Series.median()` over the non-missing values: the middle of
the sorted values, averaging the two middle values for an even count;
undefined (NaN) for an empty list. -/
def medianQ (xs : List ℚ) : Option ℚ :=
  let s := sortQ xs
  if s.length = 0 then none
  else if s.length % 2 = 1 then some (s.getD (s.length / 2) 0)
  else some ((s.getD (s.length / 2 - 1) 0 + s.getD (s.length / 2) 0) / 2)

/-- The function `safe_median_fill` of the source: fill NaNs with the
column median when the median is defined, otherwise return the column
unchanged; a median computation that raises (a column holding strings)
also returns the column unchanged.  It never aborts the pipeline. -/
def safe_median_fill (cells : List Cell) : List Cell :=
  if hasStrCell cells then cells
  else
    match medianQ (numVals cells) with
    | none => cells
    | some m => cells.map (fun c => some (c.getD (Val.num m)))

/-- The four numeric columns submitted to median imputation and scaling. -/
def numericCols : List String := ["RATING", "VOTES", "RunTime", "Gross"]

/-- One iteration of the imputation loop: median-fill the column if it
is present. -/
def fillStep (d : DF) (col : String) : DF :=
  if hasCol d col then mapNamed d col safe_median_fill else d

/-- Stage 6: apply `safe_median_fill` to each numeric column present. -/
def medianFillStage (df : DF) : DF :=
  numericCols.foldl fillStep df

/-! ### Stage 7: GENRE mode imputation -/

/-- An arbitrary linear order on values, standing in for the sort pandas
applies to `mode()` results (numbers by value, strings lexicographically). -/
def valLtb : Val → Val → Bool
  | Val.num a, Val.num b => a < b
  | Val.num _, Val.str _ => true
  | Val.str _, Val.num _ => false
  | Val.str a, Val.str b => a < b

/-- Number of occurrences of a value in a list of values. -/
def countVal (vals : List Val) (v : Val) : Nat :=
  (vals.filter (fun w => w == v)).length

/-- Whether `w` beats `m` as the reported mode: strictly more frequent,
or equally frequent and smaller (pandas `mode()` sorts and `iloc[0]`
takes the smallest). -/
def betterMode (vals : List Val) (w m : Val) : Bool :=
  countVal vals m < countVal vals w ||
    (countVal vals w == countVal vals m && valLtb w m)

/-- Fold selecting the best mode candidate. -/
def pickMode (vals : List Val) (m : Val) (l : List Val) : Val :=
  l.foldl (fun acc w => if betterMode vals w acc then w else acc) m

/-- `series.mode().iloc[0]` over the non-missing cells: a most frequent
non-missing value (smallest such under `valLtb`), or `none` when there is
no non-missing value at all (`mode()` drops NaN, so its result never
contains NaN and the `notna` guard of the source always passes). -/
def modeVal (cells : List Cell) : Option Val :=
  let vals := cells.filterMap id
  match vals with
  | [] => none
  | v :: _ => some (pickMode vals v vals)

/-- Stage 7: fill missing GENRE cells with the column mode when one
exists, and with the placeholder text "Unknown" otherwise. -/
def genreModeStage (df : DF) : DF :=
  match getCol df "GENRE" with
  | none => df
  | some cells =>
    match modeVal cells with
    | some m => putCol df "GENRE" (cells.map (fun c => some (c.getD m)))
    | none => putCol df "GENRE" (cells.map (fun c => some (c.getD (Val.str "Unknown"))))

/-! ### Stage 8: feature derivation -/

/-- Split a character list at every comma (Python `split(',')`: the
empty string yields one empty token, and consecutive commas yield empty
tokens). -/
def splitComma : List Char → List (List Char)
  | [] => [[]]
  | c :: rest =>
    let r := splitComma rest
    if c = ',' then [] :: r
    else
      match r with
      | t :: ts => (c :: t) :: ts
      | [] => [[c]]

/-- Count of comma-separated substrings that are non-empty after
trimming: the length of the list comprehension
`[s for s in str(x).split(comma) if s.strip()]`. -/
def countTokens (s : String) : Nat :=
  ((splitComma s.toList).filter (fun t => trimChars t ≠ [])).length

/-- The derived count cell for one source cell. -/
def tokenCountCell (c : Cell) : Cell :=
  some (Val.num (countTokens (pyStr c)))

/-- Stage 8: derive `num_stars` from STARS and `num_genres` from GENRE
(each only when its source column is present). -/
def featureStage (df : DF) : DF :=
  let d1 :=
    match getCol df "STARS" with
    | some cells => putCol df "num_stars" (cells.map tokenCountCell)
    | none => df
  match getCol d1 "GENRE" with
  | some cells => putCol d1 "num_genres" (cells.map tokenCountCell)
  | none => d1

/-! ### Stage 9: RunTime outlier clipping -/

/-- Pandas `Series.quantile(q)` with the default linear interpolation,
over a nonempty list of values: at sorted position `q * (n - 1)`,
interpolating between the two neighbouring order statistics. -/
def quantileLinear (q : ℚ) (xs : List ℚ) : Option ℚ :=
  let s := sortQ xs
  let n := s.length
  if n = 0 then none
  else
    let pos : ℚ := q * ((n : ℚ) - 1)
    let lo : Nat := pos.floor.toNat
    let hi : Nat := min (lo + 1) (n - 1)
    let frac : ℚ := pos - (lo : ℚ)
    some (s.getD lo 0 + frac * (s.getD hi 0 - s.getD lo 0))

/-- The clip of one cell at the threshold: `df.loc[df[col] > upper] =
upper` caps a value strictly above the threshold and leaves every other
value, and every missing cell, unchanged. -/
def clipCell (upper : ℚ) (c : Cell) : Cell :=
  match c with
  | some (Val.num x) => if upper < x then some (Val.num upper) else c
  | _ => c

/-- Stage 9: if RunTime is present and has at least one non-missing
value, cap every value strictly above the 99th percentile at the
percentile.  A column holding strings makes the quantile computation
raise; the exception handler leaves the table unchanged. -/
def clipRunTimeStage (df : DF) : DF :=
  match getCol df "RunTime" with
  | none => df
  | some cells =>
    if cells.any (fun c => c.isSome) then
      if hasStrCell cells then df
      else
        match quantileLinear (99 / 100) (numVals cells) with
        | none => df
        | some upper => putCol df "RunTime" (cells.map (clipCell upper))
    else df

/-! ### Stage 10: min-max scaling -/

/-- `astype(float)` on one cell: NaN stays NaN, numbers stay, a string
must parse as a float (the string "nan" parses to NaN); `none` signals
the ValueError that aborts the whole scaling stage. -/
def floatCell : Cell → Option Cell
  | none => some none
  | some (Val.num q) => some (some (Val.num q))
  | some (Val.str s) =>
    if s.trim = "nan" then some none
    else (toNumeric s).map (fun q => some (Val.num q))

/-- Smallest element of a nonempty list of rationals. -/
def listMin : List ℚ → Option ℚ
  | [] => none
  | x :: xs => some (xs.foldl min x)

/-- Largest element of a nonempty list of rationals. -/
def listMax : List ℚ → Option ℚ
  | [] => none
  | x :: xs => some (xs.foldl max x)

/-- `MinMaxScaler().fit_transform` on one column: subtract the observed
minimum and divide by the observed range, a zero range being replaced by
one (sklearn handles zero-variance columns this way rather than raising);
missing cells propagate. -/
def minmaxScale (cells : List Cell) : List Cell :=
  match listMin (numVals cells), listMax (numVals cells) with
  | some mn, some mx =>
    let d := if mx - mn = 0 then 1 else mx - mn
    cells.map (fun c =>
      match c with
      | some (Val.num v) => some (Val.num ((v - mn) / d))
      | other => other)
  | _, _ => cells

/-- The numeric columns present in the table
(`[c for c in [...] if c in df.columns]`). -/
def scalerColsOf (df : DF) : List String :=
  numericCols.filter (fun c => hasCol df c)

/-- The present numeric columns with at least one non-missing value
(`[c for c in scaler_cols if df[c].dropna().size > 0]`). -/
def validColsOf (df : DF) : List String :=
  (scalerColsOf df).filter (fun c => ((getCol df c).getD []).any (fun x => x.isSome))

/-- Whether `astype(float)` succeeds on every cell of every column to be
scaled; when it does not, the raised ValueError skips the whole stage. -/
def floatOkOf (df : DF) : Bool :=
  (validColsOf df).all (fun c => ((getCol df c).getD []).all (fun x => (floatCell x).isSome))

/-- Stage 10: among the four numeric columns, scale those that are
present and have at least one non-missing value; a cell that
`astype(float)` cannot convert makes the whole stage a no-op (the
exception handler), and entirely-missing columns are excluded and left
as they are. -/
def scaleStage (df : DF) : DF :=
  if (scalerColsOf df).isEmpty then df
  else if (validColsOf df).isEmpty then df
  else if floatOkOf df then
    mapCols df (fun col =>
      if (validColsOf df).contains col.name then
        minmaxScale (col.cells.map (fun x => (floatCell x).getD none))
      else col.cells)
  else df

/-! ### The full pipeline -/

/-- The function `clean_dataframe` of the source: the ten cleaning
stages composed in order. -/
def clean_dataframe (df : DF) : DF :=
  scaleStage (clipRunTimeStage (featureStage (genreModeStage (medianFillStage
    (grossStage (votesStage (yearStage (textNormStage (dropDuplicates df)))))))))

/-- Specification-level duplicate removal on a list of rows: keep each
row and delete every later equal row, so exactly the rows duplicating an
earlier row are removed, first occurrences survive in their original
relative order. -/
def dedupRows : List (List Cell) → List (List Cell)
  | [] => []
  | r :: rs => r :: dedupRows (rs.filter (fun x => x ≠ r))
termination_by l => l.length
decreasing_by
  simp only [List.length_cons]
  exact Nat.lt_succ_of_le (List.length_filter_le _ _)

/-- The table invariant of the data model: all columns have equal
length. -/
def EqLen (df : DF) : Prop :=
  ∀ c1 ∈ df.cols, ∀ c2 ∈ df.cols, c1.cells.length = c2.cells.length

instance decidableEqLen (df : DF) : Decidable (EqLen df) :=
  inferInstanceAs (Decidable
    (∀ c1 ∈ df.cols, ∀ c2 ∈ df.cols, c1.cells.length = c2.cells.length))

/-! ## Lemma infrastructure -/

/-- Find the column record with the given name. -/
def findCol (df : DF) (n : String) : Option Col :=
  df.cols.find? (fun c => c.name == n)

theorem getCol_eq_findCol (df : DF) (n : String) :
    getCol df n = (findCol df n).map (fun c => c.cells) := rfl

theorem findCol_name {df : DF} {n : String} {c : Col}
    (h : findCol df n = some c) : c.name = n := by
  have := List.find?_some h
  simpa using this

theorem findCol_mem {df : DF} {n : String} {c : Col}
    (h : findCol df n = some c) : c ∈ df.cols :=
  List.mem_of_find?_eq_some h

/-- Finding by name commutes with a map that preserves column names. -/
theorem find?_map_name_preserving (g : Col → Col) (hg : ∀ c, (g c).name = c.name)
    (cols : List Col) (n : String) :
    (cols.map g).find? (fun c => c.name == n) =
      (cols.find? (fun c => c.name == n)).map g := by
  induction cols with
  | nil => rfl
  | cons c cs ih =>
    simp only [List.map_cons, List.find?, hg]
    by_cases h : c.name = n
    · have hb : (c.name == n) = true := by simp [h]
      rw [hb]
      rfl
    · have hb : (c.name == n) = false := by simp [h]
      rw [hb]
      exact ih

theorem findCol_mapCols (df : DF) (f : Col → List Cell) (n : String) :
    findCol (mapCols df f) n = (findCol df n).map (fun c => ⟨c.name, f c⟩) := by
  unfold findCol mapCols
  exact find?_map_name_preserving (fun c => ⟨c.name, f c⟩) (fun _ => rfl) df.cols n

theorem getCol_mapCols (df : DF) (f : Col → List Cell) (n : String) :
    getCol (mapCols df f) n = (findCol df n).map f := by
  rw [getCol_eq_findCol, findCol_mapCols, Option.map_map]
  rfl

theorem getCol_mapNamed_self (df : DF) (n : String) (f : List Cell → List Cell) :
    getCol (mapNamed df n f) n = (getCol df n).map f := by
  rw [mapNamed, getCol_mapCols, getCol_eq_findCol]
  cases h : findCol df n with
  | none => rfl
  | some c => simp [findCol_name h]

theorem getCol_mapNamed_ne (df : DF) {n m : String} (f : List Cell → List Cell)
    (h : m ≠ n) : getCol (mapNamed df n f) m = getCol df m := by
  rw [mapNamed, getCol_mapCols, getCol_eq_findCol]
  cases hf : findCol df m with
  | none => rfl
  | some c => simp [findCol_name hf, h]

theorem hasCol_eq_isSome (df : DF) (n : String) :
    hasCol df n = (findCol df n).isSome := by
  unfold hasCol findCol
  rw [Bool.eq_iff_iff, List.any_eq_true, List.find?_isSome]

theorem getCol_none_of_not_hasCol {df : DF} {n : String}
    (h : hasCol df n = false) : getCol df n = none := by
  rw [hasCol_eq_isSome] at h
  rw [getCol_eq_findCol]
  cases hf : findCol df n with
  | none => rfl
  | some c => rw [hf] at h; simp at h

/-- The guarded per-column map of a stage, at its own column. -/
theorem getCol_guard_self (df : DF) (n : String) (f : List Cell → List Cell) :
    getCol (if hasCol df n then mapNamed df n f else df) n = (getCol df n).map f := by
  by_cases h : hasCol df n
  · rw [if_pos h, getCol_mapNamed_self]
  · rw [if_neg h, getCol_none_of_not_hasCol (by simpa using h)]
    rfl

/-- The guarded per-column map of a stage, at any other column. -/
theorem getCol_guard_ne (df : DF) {n m : String} (f : List Cell → List Cell)
    (h : m ≠ n) :
    getCol (if hasCol df n then mapNamed df n f else df) m = getCol df m := by
  by_cases hc : hasCol df n
  · rw [if_pos hc, getCol_mapNamed_ne df f h]
  · rw [if_neg hc]

/-- The replacement performed by `putCol` on a present column preserves
every column name. -/
theorem putCol_replace_name (n : String) (cs : List Cell) (c : Col) :
    ((if c.name == n then (⟨c.name, cs⟩ : Col) else c) : Col).name = c.name := by
  by_cases h : c.name = n <;> simp [h]

theorem getCol_putCol_self (df : DF) (n : String) (cs : List Cell) :
    getCol (putCol df n cs) n = some cs := by
  unfold putCol
  by_cases h : df.cols.any (fun c => c.name == n)
  · rw [if_pos h]
    show ((df.cols.map fun c => if c.name == n then (⟨c.name, cs⟩ : Col) else c).find?
        (fun c => c.name == n)).map (fun c => c.cells) = some cs
    rw [find?_map_name_preserving _ (putCol_replace_name n cs)]
    have h2 : (findCol df n).isSome := by rw [← hasCol_eq_isSome]; exact h
    cases hf : df.cols.find? (fun c => c.name == n) with
    | none => rw [show findCol df n = none from hf] at h2; simp at h2
    | some d =>
      have hd : d.name = n := by simpa using List.find?_some hf
      simp [hd]
  · rw [if_neg h]
    show ((df.cols ++ [(⟨n, cs⟩ : Col)]).find? (fun c => c.name == n)).map
        (fun c => c.cells) = some cs
    have hn : df.cols.find? (fun c => c.name == n) = none := by
      rw [List.find?_eq_none]
      intro c hc hcn
      exact h (List.any_eq_true.mpr ⟨c, hc, hcn⟩)
    rw [List.find?_append, hn]
    simp

theorem getCol_putCol_ne (df : DF) {n m : String} (cs : List Cell) (h : m ≠ n) :
    getCol (putCol df n cs) m = getCol df m := by
  unfold putCol
  by_cases hp : df.cols.any (fun c => c.name == n)
  · rw [if_pos hp]
    show ((df.cols.map fun c => if c.name == n then (⟨c.name, cs⟩ : Col) else c).find?
        (fun c => c.name == m)).map (fun c => c.cells) = getCol df m
    rw [find?_map_name_preserving _ (putCol_replace_name n cs), getCol_eq_findCol]
    unfold findCol
    cases hf : df.cols.find? (fun c => c.name == m) with
    | none => rfl
    | some d =>
      have hd : d.name = m := by simpa using List.find?_some hf
      have hdn : ¬ d.name = n := by rw [hd]; exact h
      simp [hdn]
  · rw [if_neg hp]
    show ((df.cols ++ [(⟨n, cs⟩ : Col)]).find? (fun c => c.name == m)).map
        (fun c => c.cells) = getCol df m
    rw [List.find?_append]
    have : ([(⟨n, cs⟩ : Col)].find? (fun c => c.name == m)) = none := by
      simp only [List.find?_singleton]
      have : ¬ n = m := fun hc => h hc.symm
      simp [this]
    rw [this, Option.or_none, getCol_eq_findCol]
    rfl

/-! ### List access helpers -/

theorem getD_map_of_lt {α β : Type} (f : α → β) (l : List α) (i : Nat)
    (d : α) (d2 : β) (h : i < l.length) :
    (l.map f).getD i d2 = f (l.getD i d) := by
  rw [List.getD_eq_getElem l d h,
    List.getD_eq_getElem (l.map f) d2 (by simpa using h)]
  simp

theorem lt_length_of_getD_some {l : List Cell} {i : Nat} {v : Val}
    (h : l.getD i none = some v) : i < l.length := by
  by_contra hge
  rw [List.getD_eq_default] at h
  · exact Option.noConfusion h
  · omega

/-! ### Digit-string parsing lemmas -/

theorem not_whitespace_of_digit {c : Char} (h : c.isDigit = true) :
    c.isWhitespace = false := by
  by_contra hw
  rw [Bool.not_eq_false] at hw
  have : ((c = ' ' ∨ c = '\t') ∨ c = '\x0d') ∨ c = '\n' := by
    simpa [Char.isWhitespace] using hw
  rcases this with ((h1 | h1) | h1) | h1 <;> subst h1 <;> exact absurd h (by decide)

theorem trimChars_of_all_digits {cs : List Char}
    (h : ∀ c ∈ cs, c.isDigit = true) : trimChars cs = cs := by
  have h1 : cs.dropWhile Char.isWhitespace = cs := by
    cases cs with
    | nil => rfl
    | cons a l =>
      rw [List.dropWhile_cons, if_neg]
      simp [not_whitespace_of_digit (h a (by simp))]
  unfold trimChars
  rw [h1]
  have h2 : cs.reverse.dropWhile Char.isWhitespace = cs.reverse := by
    cases hr : cs.reverse with
    | nil => rfl
    | cons a l =>
      have ha : a ∈ cs := by
        rw [← List.mem_reverse, hr]; simp
      rw [List.dropWhile_cons, if_neg]
      simp [not_whitespace_of_digit (h a ha)]
  rw [h2, List.reverse_reverse]

theorem parseUnsigned_digits {cs : List Char} (hne : cs ≠ [])
    (h : ∀ c ∈ cs, c.isDigit = true) :
    parseUnsigned cs = some (digitsVal cs) := by
  unfold parseUnsigned
  have ht : cs.takeWhile Char.isDigit = cs := List.takeWhile_eq_self_iff.mpr h
  have hd : cs.dropWhile Char.isDigit = [] := List.dropWhile_eq_nil_iff.mpr h
  rw [ht, hd]
  simp [hne]

theorem parseSigned_digits {cs : List Char} (hne : cs ≠ [])
    (h : ∀ c ∈ cs, c.isDigit = true) :
    parseSigned cs = some (digitsVal cs) := by
  cases cs with
  | nil => exact absurd rfl hne
  | cons a l =>
    have ha : a.isDigit = true := h a (by simp)
    have h1 : ¬ a = '-' := fun hc => by subst hc; exact absurd ha (by decide)
    have h2 : ¬ a = '+' := fun hc => by subst hc; exact absurd ha (by decide)
    rw [show parseSigned (a :: l) =
        (if a = '-' then (parseUnsigned l).map (fun q => -q)
         else if a = '+' then parseUnsigned l
         else parseUnsigned (a :: l)) from rfl]
    rw [if_neg h1, if_neg h2]
    exact parseUnsigned_digits hne h

theorem toNumeric_digits {cs : List Char} (hne : cs ≠ [])
    (h : ∀ c ∈ cs, c.isDigit = true) :
    toNumeric (String.mk cs) = some (digitsVal cs) := by
  unfold toNumeric
  rw [show (String.mk cs).toList = cs from rfl, trimChars_of_all_digits h]
  exact parseSigned_digits hne h

theorem firstFourDigits_spec {cs ds : List Char}
    (h : firstFourDigits cs = some ds) :
    ds ≠ [] ∧ ∀ c ∈ ds, c.isDigit = true := by
  induction cs with
  | nil => exact absurd h (by simp [firstFourDigits])
  | cons a rest ih =>
    rw [firstFourDigits] at h
    by_cases hd : (a.isDigit && threeDigits rest) = true
    · rw [if_pos hd] at h
      have hds : ds = a :: rest.take 3 := (Option.some_injective _ h).symm
      subst hds
      rw [Bool.and_eq_true] at hd
      refine ⟨by simp, ?_⟩
      intro c hc
      rcases List.mem_cons.mp hc with rfl | hc3
      · exact hd.1
      · match rest, hd.2 with
        | b :: c2 :: d :: t, h3 =>
          simp only [Bool.and_eq_true] at *
          simp only [threeDigits] at h3
          rw [Bool.and_eq_true, Bool.and_eq_true] at h3
          simp only [List.take] at hc3
          rcases (by simpa using hc3 : c = b ∨ c = c2 ∨ c = d) with rfl | rfl | rfl
          · exact h3.1.1
          · exact h3.1.2
          · exact h3.2
    · rw [if_neg hd] at h
      exact ih h

theorem yearCell_of_found {c : Cell} {ds : List Char}
    (h : firstFourDigits (pyStr c).toList = some ds) :
    yearCell c = some (Val.num (digitsVal ds)) := by
  unfold yearCell
  rw [h]
  obtain ⟨hne, hdig⟩ := firstFourDigits_spec h
  simp [toNumeric_digits hne hdig]

theorem yearCell_of_none {c : Cell}
    (h : firstFourDigits (pyStr c).toList = none) : yearCell c = none := by
  unfold yearCell
  rw [h]

/-! ### Per-stage column access -/

theorem getCol_yearStage_self (df : DF) :
    getCol (yearStage df) "YEAR" = (getCol df "YEAR").map (fun cs => cs.map yearCell) := by
  unfold yearStage
  exact getCol_guard_self df "YEAR" _

theorem getCol_yearStage_ne (df : DF) {m : String} (h : m ≠ "YEAR") :
    getCol (yearStage df) m = getCol df m := by
  unfold yearStage
  exact getCol_guard_ne df _ h

theorem getCol_votesStage_self (df : DF) :
    getCol (votesStage df) "VOTES" = (getCol df "VOTES").map (fun cs => cs.map votesCell) := by
  unfold votesStage
  exact getCol_guard_self df "VOTES" _

theorem getCol_votesStage_ne (df : DF) {m : String} (h : m ≠ "VOTES") :
    getCol (votesStage df) m = getCol df m := by
  unfold votesStage
  exact getCol_guard_ne df _ h

theorem getCol_grossStage_self (df : DF) :
    getCol (grossStage df) "Gross" = (getCol df "Gross").map (fun cs => cs.map grossCell) := by
  unfold grossStage
  exact getCol_guard_self df "Gross" _

theorem getCol_grossStage_ne (df : DF) {m : String} (h : m ≠ "Gross") :
    getCol (grossStage df) m = getCol df m := by
  unfold grossStage
  exact getCol_guard_ne df _ h

theorem getCol_normStep_self (df : DF) (n : String) :
    getCol (normStep df n) n = (getCol df n).map (fun cs => cs.map normCell) := by
  unfold normStep
  exact getCol_guard_self df n _

theorem getCol_normStep_ne (df : DF) {n m : String} (h : m ≠ n) :
    getCol (normStep df n) m = getCol df m := by
  unfold normStep
  exact getCol_guard_ne df _ h

theorem textNormStage_eq (df : DF) :
    textNormStage df =
      normStep (normStep (normStep (normStep df "MOVIES") "GENRE") "ONE-LINE") "STARS" := rfl

theorem getCol_textNormStage (df : DF) {t : String} (ht : t ∈ textCols) :
    getCol (textNormStage df) t = (getCol df t).map (fun cs => cs.map normCell) := by
  rw [textNormStage_eq]
  have ht4 : t = "MOVIES" ∨ t = "GENRE" ∨ t = "ONE-LINE" ∨ t = "STARS" := by
    simpa [textCols] using ht
  rcases ht4 with rfl | rfl | rfl | rfl
  · rw [getCol_normStep_ne _ (by decide), getCol_normStep_ne _ (by decide),
      getCol_normStep_ne _ (by decide), getCol_normStep_self]
  · rw [getCol_normStep_ne _ (by decide), getCol_normStep_ne _ (by decide),
      getCol_normStep_self, getCol_normStep_ne _ (by decide)]
  · rw [getCol_normStep_ne _ (by decide), getCol_normStep_self,
      getCol_normStep_ne _ (by decide), getCol_normStep_ne _ (by decide)]
  · rw [getCol_normStep_self, getCol_normStep_ne _ (by decide),
      getCol_normStep_ne _ (by decide), getCol_normStep_ne _ (by decide)]

theorem getCol_textNormStage_ne (df : DF) {m : String} (hm : ¬ m ∈ textCols) :
    getCol (textNormStage df) m = getCol df m := by
  rw [textNormStage_eq]
  have h4 : ¬ m = "MOVIES" ∧ ¬ m = "GENRE" ∧ ¬ m = "ONE-LINE" ∧ ¬ m = "STARS" := by
    constructor
    · exact fun hc => hm (by rw [hc]; decide)
    constructor
    · exact fun hc => hm (by rw [hc]; decide)
    constructor
    · exact fun hc => hm (by rw [hc]; decide)
    · exact fun hc => hm (by rw [hc]; decide)
  rw [getCol_normStep_ne _ h4.2.2.2, getCol_normStep_ne _ h4.2.2.1,
    getCol_normStep_ne _ h4.2.1, getCol_normStep_ne _ h4.1]

theorem featureStage_num_stars (df : DF) (stars : List Cell)
    (h : getCol df "STARS" = some stars) :
    getCol (featureStage df) "num_stars" = some (stars.map tokenCountCell) := by
  unfold featureStage
  simp only [h]
  cases hg : getCol (putCol df "num_stars" (stars.map tokenCountCell)) "GENRE" with
  | none => exact getCol_putCol_self df "num_stars" _
  | some g =>
    rw [getCol_putCol_ne _ _ (by decide)]
    exact getCol_putCol_self df "num_stars" _

theorem featureStage_num_genres (df : DF) (genre : List Cell)
    (hg : getCol df "GENRE" = some genre) :
    getCol (featureStage df) "num_genres" = some (genre.map tokenCountCell) := by
  unfold featureStage
  cases hs : getCol df "STARS" with
  | none =>
    simp only [hg]
    exact getCol_putCol_self df "num_genres" _
  | some stars =>
    have hg1 : getCol (putCol df "num_stars" (stars.map tokenCountCell)) "GENRE"
        = some genre := by
      rw [getCol_putCol_ne _ _ (by decide)]
      exact hg
    simp only [hg1]
    exact getCol_putCol_self _ "num_genres" _

theorem getCol_featureStage_ne (df : DF) {m : String}
    (h1 : m ≠ "num_stars") (h2 : m ≠ "num_genres") :
    getCol (featureStage df) m = getCol df m := by
  unfold featureStage
  cases hs : getCol df "STARS" with
  | none =>
    simp only [hs]
    cases hg : getCol df "GENRE" with
    | none => simp only [hg]
    | some g =>
      simp only [hg]
      exact getCol_putCol_ne df _ h2
  | some stars =>
    simp only [hs]
    cases hg2 : getCol (putCol df "num_stars" (stars.map tokenCountCell)) "GENRE" with
    | none =>
      simp only [hg2]
      exact getCol_putCol_ne df _ h1
    | some g =>
      simp only [hg2]
      rw [getCol_putCol_ne _ _ h2]
      exact getCol_putCol_ne df _ h1

/-! ## Claim theorems -/

/-- C1 (Gross coercion): for a table with a Gross column, the coercion
stage of the pipeline replaces each cell by the result of stripping
every character that is not a decimal digit or a period from the
string-coerced cell and parsing the remainder as a number; a cell whose
stripped text does not parse becomes missing (never zero), the input
"$1,234.56" yields 1234.56, and the input "N/A" yields a missing
value. -/
theorem gross_coercion (df : DF) (cells : List Cell)
    (h : getCol df "Gross" = some cells) :
    getCol (grossStage df) "Gross" = some (cells.map grossCell) ∧
    (∀ c : Cell, grossCell c = (toNumeric (stripNonNumChars (pyStr c))).map Val.num) ∧
    (∀ c : Cell, toNumeric (stripNonNumChars (pyStr c)) = none → grossCell c = none) ∧
    grossCell (some (Val.str "$1,234.56")) = some (Val.num (123456 / 100)) ∧
    grossCell (some (Val.str "N/A")) = none := by
  refine ⟨?_, fun c => rfl, ?_, ?_, by decide⟩
  · rw [getCol_grossStage_self, h]
    rfl
  · intro c hc
    unfold grossCell
    rw [hc]
    rfl
  · have h1 : grossCell (some (Val.str "$1,234.56"))
        = some (Val.num ((digitsVal ['1', '2', '3', '4'] : ℚ)
            + (digitsVal ['5', '6'] : ℚ) / (10 : ℚ) ^ (2 : ℕ))) := rfl
    rw [h1]
    norm_num [show digitsVal ['1', '2', '3', '4'] = 1234 from by decide,
      show digitsVal ['5', '6'] = 56 from by decide]

/-- Witness for C1 at a concrete two-row table. -/
theorem gross_coercion_witness :
    getCol (DF.mk [Col.mk "Gross"
        [some (Val.str "$1,234.56"), some (Val.str "N/A")]]) "Gross"
      = some [some (Val.str "$1,234.56"), some (Val.str "N/A")] ∧
    (getCol (grossStage (DF.mk [Col.mk "Gross"
        [some (Val.str "$1,234.56"), some (Val.str "N/A")]])) "Gross"
      = some ([some (Val.str "$1,234.56"), some (Val.str "N/A")].map grossCell) ∧
    (∀ c : Cell, grossCell c = (toNumeric (stripNonNumChars (pyStr c))).map Val.num) ∧
    (∀ c : Cell, toNumeric (stripNonNumChars (pyStr c)) = none → grossCell c = none) ∧
    grossCell (some (Val.str "$1,234.56")) = some (Val.num (123456 / 100)) ∧
    grossCell (some (Val.str "N/A")) = none) :=
  ⟨by decide, gross_coercion _ _ (by decide)⟩

/-- C3 (Year extraction): for a table with a YEAR column, the extraction
stage replaces each cell by the integer parsed from the first four
consecutive decimal digits of the string-coerced cell, and by a missing
value when no four consecutive digits occur; the input "(2015– )"
yields 2015 and the input "TV Series" yields missing. -/
theorem year_extraction (df : DF) (cells : List Cell)
    (h : getCol df "YEAR" = some cells) :
    getCol (yearStage df) "YEAR" = some (cells.map yearCell) ∧
    (∀ (c : Cell) (ds : List Char), firstFourDigits (pyStr c).toList = some ds →
      yearCell c = some (Val.num (digitsVal ds))) ∧
    (∀ c : Cell, firstFourDigits (pyStr c).toList = none → yearCell c = none) ∧
    yearCell (some (Val.str "(2015– )")) = some (Val.num 2015) ∧
    yearCell (some (Val.str "TV Series")) = none := by
  refine ⟨?_, fun c ds hds => yearCell_of_found hds,
    fun c hc => yearCell_of_none hc, by decide, by decide⟩
  rw [getCol_yearStage_self, h]
  rfl

/-- Witness for C3 at a concrete two-row table. -/
theorem year_extraction_witness :
    getCol (DF.mk [Col.mk "YEAR"
        [some (Val.str "(2015– )"), some (Val.str "TV Series")]]) "YEAR"
      = some [some (Val.str "(2015– )"), some (Val.str "TV Series")] ∧
    (getCol (yearStage (DF.mk [Col.mk "YEAR"
        [some (Val.str "(2015– )"), some (Val.str "TV Series")]])) "YEAR"
      = some ([some (Val.str "(2015– )"), some (Val.str "TV Series")].map yearCell) ∧
    (∀ (c : Cell) (ds : List Char), firstFourDigits (pyStr c).toList = some ds →
      yearCell c = some (Val.num (digitsVal ds))) ∧
    (∀ c : Cell, firstFourDigits (pyStr c).toList = none → yearCell c = none) ∧
    yearCell (some (Val.str "(2015– )")) = some (Val.num 2015) ∧
    yearCell (some (Val.str "TV Series")) = none) :=
  ⟨by decide, year_extraction _ _ (by decide)⟩

/-- C7 (Feature derivation): for every table with a STARS column, the
derived num_stars cell of every row is the count of comma-separated
substrings of the string-coerced STARS cell that are non-empty after
trimming — regardless of whether a GENRE column is present — and, when
a GENRE column is present, num_genres is derived from it by the same
rule; the cell "Tom Hanks, , Meg Ryan" yields count 2. -/
theorem feature_counts (df : DF) (stars : List Cell)
    (hs : getCol df "STARS" = some stars) :
    getCol (featureStage df) "num_stars"
      = some (stars.map (fun c => some (Val.num (countTokens (pyStr c))))) ∧
    (∀ genre : List Cell, getCol df "GENRE" = some genre →
      getCol (featureStage df) "num_genres"
        = some (genre.map (fun c => some (Val.num (countTokens (pyStr c)))))) ∧
    countTokens "Tom Hanks, , Meg Ryan" = 2 := by
  exact ⟨featureStage_num_stars df stars hs,
    fun genre hg => featureStage_num_genres df genre hg, by decide⟩

/-- Witness for C7 at a concrete one-row table that has a STARS column
but no GENRE column. -/
theorem feature_counts_witness :
    getCol (DF.mk [Col.mk "STARS" [some (Val.str "Tom Hanks, , Meg Ryan")]]) "STARS"
      = some [some (Val.str "Tom Hanks, , Meg Ryan")] ∧
    (getCol (featureStage (DF.mk
        [Col.mk "STARS" [some (Val.str "Tom Hanks, , Meg Ryan")]])) "num_stars"
      = some ([some (Val.str "Tom Hanks, , Meg Ryan")].map
          (fun c => some (Val.num (countTokens (pyStr c))))) ∧
    (∀ genre : List Cell,
      getCol (DF.mk [Col.mk "STARS" [some (Val.str "Tom Hanks, , Meg Ryan")]])
        "GENRE" = some genre →
      getCol (featureStage (DF.mk
          [Col.mk "STARS" [some (Val.str "Tom Hanks, , Meg Ryan")]])) "num_genres"
        = some (genre.map (fun c => some (Val.num (countTokens (pyStr c)))))) ∧
    countTokens "Tom Hanks, , Meg Ryan" = 2) :=
  ⟨by decide, feature_counts _ _ (by decide)⟩

/-- C10 (implicit text coercion): the text-normalisation stage
string-coerces every cell of each present text column, so a missing
cell becomes the literal non-missing string "nan"; consequently these
columns contain no missing entries after normalisation, and a row whose
STARS cell is the coerced "nan" gets num_stars = 1. -/
theorem text_coercion_no_missing (df : DF) (t : String) (cells : List Cell)
    (ht : t ∈ textCols) (h : getCol df t = some cells) :
    getCol (textNormStage df) t = some (cells.map normCell) ∧
    (∀ c ∈ cells.map normCell, Option.isSome c = true) ∧
    normCell none = some (Val.str "nan") ∧
    countTokens (pyStr (normCell none)) = 1 ∧
    (∀ (df2 : DF) (stars : List Cell) (i : Nat),
      getCol df2 "STARS" = some stars →
      stars.getD i none = some (Val.str "nan") →
      ∃ ns, getCol (featureStage df2) "num_stars" = some ns ∧
        ns.getD i none = some (Val.num 1)) := by
  refine ⟨?_, ?_, by decide, by decide, ?_⟩
  · rw [getCol_textNormStage df ht, h]
    rfl
  · intro c hc
    rw [List.mem_map] at hc
    obtain ⟨a, _, rfl⟩ := hc
    rfl
  · intro df2 stars i h2 hi
    refine ⟨stars.map tokenCountCell, featureStage_num_stars df2 stars h2, ?_⟩
    have hlt : i < stars.length := lt_length_of_getD_some hi
    rw [getD_map_of_lt tokenCountCell stars i none none hlt, hi]
    decide

/-- Witness for C10 at a concrete table whose STARS cell is missing. -/
theorem text_coercion_no_missing_witness :
    ("STARS" ∈ textCols) ∧
    getCol (DF.mk [Col.mk "STARS" [none]]) "STARS" = some [none] ∧
    (getCol (textNormStage (DF.mk [Col.mk "STARS" [none]])) "STARS"
        = some ([(none : Cell)].map normCell) ∧
    (∀ c ∈ [(none : Cell)].map normCell, Option.isSome c = true) ∧
    normCell none = some (Val.str "nan") ∧
    countTokens (pyStr (normCell none)) = 1 ∧
    (∀ (df2 : DF) (stars : List Cell) (i : Nat),
      getCol df2 "STARS" = some stars →
      stars.getD i none = some (Val.str "nan") →
      ∃ ns, getCol (featureStage df2) "num_stars" = some ns ∧
        ns.getD i none = some (Val.num 1))) :=
  ⟨by decide, by decide, text_coercion_no_missing _ _ _ (by decide) (by decide)⟩

/-! ### Mode-selection lemmas -/

theorem betterMode_le {vals : List Val} {w m : Val}
    (h : betterMode vals w m = true) : countVal vals m ≤ countVal vals w := by
  unfold betterMode at h
  rw [Bool.or_eq_true, Bool.and_eq_true] at h
  rcases h with h | ⟨h, _⟩
  · exact le_of_lt (by simpa using h)
  · have he : countVal vals w = countVal vals m := by simpa using h
    omega

theorem not_betterMode_le {vals : List Val} {w m : Val}
    (h : ¬ betterMode vals w m = true) : countVal vals w ≤ countVal vals m := by
  unfold betterMode at h
  rw [Bool.or_eq_true, Bool.and_eq_true] at h
  push_neg at h
  have h1 : ¬ countVal vals m < countVal vals w := by
    intro hc; exact absurd (by simpa using hc) h.1
  omega

theorem pickMode_spec (vals : List Val) (l : List Val) (m : Val) :
    (pickMode vals m l = m ∨ pickMode vals m l ∈ l) ∧
    countVal vals m ≤ countVal vals (pickMode vals m l) ∧
    (∀ w ∈ l, countVal vals w ≤ countVal vals (pickMode vals m l)) := by
  induction l generalizing m with
  | nil => exact ⟨Or.inl rfl, le_refl _, by simp⟩
  | cons w ws ih =>
    have hfold : pickMode vals m (w :: ws)
        = pickMode vals (if betterMode vals w m then w else m) ws := rfl
    obtain ⟨hmem, hinit, hall⟩ := ih (if betterMode vals w m then w else m)
    have hstep : countVal vals m ≤ countVal vals (if betterMode vals w m then w else m) := by
      by_cases hb : betterMode vals w m = true
      · rw [if_pos hb]; exact betterMode_le hb
      · rw [if_neg hb]
    have hstepw : countVal vals w ≤ countVal vals (if betterMode vals w m then w else m) := by
      by_cases hb : betterMode vals w m = true
      · rw [if_pos hb]
      · rw [if_neg hb]; exact not_betterMode_le hb
    refine ⟨?_, ?_, ?_⟩
    · rw [hfold]
      by_cases hb : betterMode vals w m = true
      · rw [if_pos hb] at hmem ⊢
        rcases hmem with h | h
        · right; rw [h]; exact List.mem_cons_self w ws
        · right; exact List.mem_cons_of_mem _ h
      · rw [if_neg hb] at hmem ⊢
        rcases hmem with h | h
        · left; exact h
        · right; exact List.mem_cons_of_mem _ h
    · rw [hfold]; exact le_trans hstep hinit
    · intro u hu
      rw [hfold]
      rcases List.mem_cons.mp hu with rfl | hus
      · exact le_trans hstepw hinit
      · exact hall u hus

theorem modeVal_none_iff (cells : List Cell) :
    modeVal cells = none ↔ cells.filterMap id = [] := by
  unfold modeVal
  cases h : cells.filterMap id with
  | nil => simp
  | cons v vs => simp

theorem modeVal_some_spec {cells : List Cell} {m : Val}
    (h : modeVal cells = some m) :
    m ∈ cells.filterMap id ∧
    ∀ v ∈ cells.filterMap id,
      countVal (cells.filterMap id) v ≤ countVal (cells.filterMap id) m := by
  unfold modeVal at h
  cases hv : cells.filterMap id with
  | nil => rw [hv] at h; exact Option.noConfusion h
  | cons v vs =>
    rw [hv] at h
    simp only [] at h
    have hm : pickMode (v :: vs) v (v :: vs) = m := Option.some_injective _ h
    obtain ⟨hmem, _, hall⟩ := pickMode_spec (v :: vs) (v :: vs) v
    rw [hm] at hmem hall
    constructor
    · rcases hmem with hh | hh
      · rw [hh]; exact List.mem_cons_self v vs
      · exact hh
    · exact hall

theorem mem_filterMap_id_iff (cells : List Cell) (v : Val) :
    v ∈ cells.filterMap id ↔ some v ∈ cells := by
  rw [List.mem_filterMap]
  constructor
  · rintro ⟨a, ha, hav⟩
    cases a with
    | none => exact Option.noConfusion hav
    | some w => rw [show id (some w) = some w from rfl] at hav
                rw [Option.some_injective _ hav] at ha; exact ha
  · intro hv; exact ⟨some v, hv, rfl⟩

/-! ### Median-fill lemmas -/

theorem insertSorted_length (x : ℚ) (l : List ℚ) :
    (insertSorted x l).length = l.length + 1 := by
  induction l with
  | nil => rfl
  | cons y ys ih =>
    unfold insertSorted
    by_cases h : x ≤ y
    · rw [if_pos h]; rfl
    · rw [if_neg h]; simp [ih]

theorem sortQ_length (xs : List ℚ) : (sortQ xs).length = xs.length := by
  unfold sortQ
  induction xs with
  | nil => rfl
  | cons x l ih => rw [List.foldr_cons, insertSorted_length, ih]; rfl

theorem medianQ_none_iff (xs : List ℚ) : medianQ xs = none ↔ xs = [] := by
  unfold medianQ
  constructor
  · intro h
    by_cases hl : (sortQ xs).length = 0
    · rw [sortQ_length] at hl
      exact List.length_eq_zero.mp hl
    · rw [if_neg hl] at h
      by_cases hp : (sortQ xs).length % 2 = 1
      · rw [if_pos hp] at h; exact Option.noConfusion h
      · rw [if_neg hp] at h; exact Option.noConfusion h
  · intro h
    subst h
    rfl

theorem getCol_fillStep_self (df : DF) (n : String) :
    getCol (fillStep df n) n = (getCol df n).map safe_median_fill := by
  unfold fillStep
  exact getCol_guard_self df n _

theorem getCol_fillStep_ne (df : DF) {n m : String} (h : m ≠ n) :
    getCol (fillStep df n) m = getCol df m := by
  unfold fillStep
  exact getCol_guard_ne df _ h

theorem medianFillStage_eq (df : DF) :
    medianFillStage df =
      fillStep (fillStep (fillStep (fillStep df "RATING") "VOTES") "RunTime") "Gross" := rfl

theorem getCol_medianFillStage (df : DF) {t : String} (ht : t ∈ numericCols) :
    getCol (medianFillStage df) t = (getCol df t).map safe_median_fill := by
  rw [medianFillStage_eq]
  have ht4 : t = "RATING" ∨ t = "VOTES" ∨ t = "RunTime" ∨ t = "Gross" := by
    simpa [numericCols] using ht
  rcases ht4 with rfl | rfl | rfl | rfl
  · rw [getCol_fillStep_ne _ (by decide), getCol_fillStep_ne _ (by decide),
      getCol_fillStep_ne _ (by decide), getCol_fillStep_self]
  · rw [getCol_fillStep_ne _ (by decide), getCol_fillStep_ne _ (by decide),
      getCol_fillStep_self, getCol_fillStep_ne _ (by decide)]
  · rw [getCol_fillStep_ne _ (by decide), getCol_fillStep_self,
      getCol_fillStep_ne _ (by decide), getCol_fillStep_ne _ (by decide)]
  · rw [getCol_fillStep_self, getCol_fillStep_ne _ (by decide),
      getCol_fillStep_ne _ (by decide), getCol_fillStep_ne _ (by decide)]

theorem getCol_medianFillStage_ne (df : DF) {m : String} (hm : ¬ m ∈ numericCols) :
    getCol (medianFillStage df) m = getCol df m := by
  rw [medianFillStage_eq]
  have h4 : ¬ m = "RATING" ∧ ¬ m = "VOTES" ∧ ¬ m = "RunTime" ∧ ¬ m = "Gross" := by
    refine ⟨fun hc => hm ?_, fun hc => hm ?_, fun hc => hm ?_, fun hc => hm ?_⟩ <;>
      (rw [hc]; decide)
  rw [getCol_fillStep_ne _ h4.2.2.2, getCol_fillStep_ne _ h4.2.2.1,
    getCol_fillStep_ne _ h4.2.1, getCol_fillStep_ne _ h4.1]

/-- C4 (Numeric median imputation): for each numeric column present
(RATING, VOTES, RunTime, Gross), the imputation stage leaves the column
unchanged when it has no numeric values (never raising — the stage is
total), and otherwise fills every missing entry with the median of the
pre-imputation non-missing values and leaves non-missing entries
unchanged, so the count of missing entries after the stage is zero. -/
theorem median_imputation (df : DF) (t : String) (cells : List Cell)
    (ht : t ∈ numericCols) (h : getCol df t = some cells)
    (hnostr : hasStrCell cells = false) :
    getCol (medianFillStage df) t = some (safe_median_fill cells) ∧
    (numVals cells = [] → safe_median_fill cells = cells) ∧
    (numVals cells ≠ [] →
      ∃ m, medianQ (numVals cells) = some m ∧
        (∀ x ∈ safe_median_fill cells, x.isSome = true) ∧
        (∀ i, i < cells.length → cells.getD i none = none →
          (safe_median_fill cells).getD i none = some (Val.num m)) ∧
        (∀ i, i < cells.length → cells.getD i none ≠ none →
          (safe_median_fill cells).getD i none = cells.getD i none)) := by
  have hif : ¬ (hasStrCell cells = true) := by rw [hnostr]; exact Bool.false_ne_true
  refine ⟨?_, ?_, ?_⟩
  · rw [getCol_medianFillStage df ht, h]
    rfl
  · intro hempty
    unfold safe_median_fill
    rw [if_neg hif, (medianQ_none_iff _).mpr hempty]
  · intro hne
    cases hm : medianQ (numVals cells) with
    | none => exact absurd ((medianQ_none_iff _).mp hm) hne
    | some m =>
      have hres : safe_median_fill cells
          = cells.map (fun c => some (c.getD (Val.num m))) := by
        unfold safe_median_fill
        rw [if_neg hif, hm]
      refine ⟨m, rfl, ?_, ?_, ?_⟩
      · intro x hx
        rw [hres, List.mem_map] at hx
        obtain ⟨a, _, rfl⟩ := hx
        rfl
      · intro i hi hnone
        rw [hres, getD_map_of_lt _ cells i none none hi, hnone]
        rfl
      · intro i hi hne2
        rw [hres, getD_map_of_lt _ cells i none none hi]
        cases hc : cells.getD i none with
        | none => exact absurd hc hne2
        | some v => rfl

/-- Witness for C4 at a concrete RATING column with one missing cell. -/
theorem median_imputation_witness :
    ("RATING" ∈ numericCols) ∧
    getCol (DF.mk [Col.mk "RATING" [some (Val.num 1), none, some (Val.num 3)]]) "RATING"
      = some [some (Val.num 1), none, some (Val.num 3)] ∧
    hasStrCell [some (Val.num 1), none, some (Val.num 3)] = false ∧
    (getCol (medianFillStage (DF.mk
        [Col.mk "RATING" [some (Val.num 1), none, some (Val.num 3)]])) "RATING"
      = some (safe_median_fill [some (Val.num 1), none, some (Val.num 3)]) ∧
    (numVals [some (Val.num 1), none, some (Val.num 3)] = [] →
      safe_median_fill [some (Val.num 1), none, some (Val.num 3)]
        = [some (Val.num 1), none, some (Val.num 3)]) ∧
    (numVals [some (Val.num 1), none, some (Val.num 3)] ≠ [] →
      ∃ m, medianQ (numVals [some (Val.num 1), none, some (Val.num 3)]) = some m ∧
        (∀ x ∈ safe_median_fill [some (Val.num 1), none, some (Val.num 3)],
          x.isSome = true) ∧
        (∀ i, i < 3 → [some (Val.num 1), none, some (Val.num 3)].getD i none = none →
          (safe_median_fill [some (Val.num 1), none, some (Val.num 3)]).getD i none
            = some (Val.num m)) ∧
        (∀ i, i < 3 → [some (Val.num 1), none, some (Val.num 3)].getD i none ≠ none →
          (safe_median_fill [some (Val.num 1), none, some (Val.num 3)]).getD i none
            = [some (Val.num 1), none, some (Val.num 3)].getD i none))) :=
  ⟨by decide, by decide, by decide,
    median_imputation _ "RATING" _ (by decide) (by decide) (by decide)⟩

/-! ### Clipping lemmas -/

theorem numVals_ne_nil {cells : List Cell}
    (hnz : cells.any (fun c => c.isSome) = true)
    (hnostr : hasStrCell cells = false) : numVals cells ≠ [] := by
  rw [List.any_eq_true] at hnz
  obtain ⟨c, hc, hs⟩ := hnz
  cases c with
  | none => exact absurd hs (by simp)
  | some v =>
    cases v with
    | str s =>
      exfalso
      have : hasStrCell cells = true := by
        unfold hasStrCell
        rw [List.any_eq_true]
        exact ⟨some (Val.str s), hc, rfl⟩
      rw [hnostr] at this
      exact Bool.false_ne_true this
    | num q =>
      intro hemp
      have : q ∈ numVals cells := by
        unfold numVals
        rw [List.mem_filterMap]
        exact ⟨some (Val.num q), hc, rfl⟩
      rw [hemp] at this
      exact absurd this (List.not_mem_nil q)

theorem quantileLinear_isSome {q : ℚ} {xs : List ℚ} (h : xs ≠ []) :
    ∃ u, quantileLinear q xs = some u := by
  unfold quantileLinear
  have hl : ¬ (sortQ xs).length = 0 := by
    rw [sortQ_length]
    exact fun hc => h (List.length_eq_zero.mp hc)
  rw [if_neg hl]
  exact ⟨_, rfl⟩

/-- C6 (Outlier clipping): for a table whose RunTime column is present,
numeric, and has at least one non-missing value, the clipping stage
computes the pre-clip 99th percentile of the non-missing values and
replaces every value strictly greater than that threshold by the
threshold; values already at most the threshold and missing values are
unchanged, and afterwards no RunTime value exceeds the threshold. -/
theorem runtime_clipping (df : DF) (cells : List Cell)
    (h : getCol df "RunTime" = some cells)
    (hnz : cells.any (fun c => c.isSome) = true)
    (hnostr : hasStrCell cells = false) :
    ∃ upper, quantileLinear (99 / 100) (numVals cells) = some upper ∧
      getCol (clipRunTimeStage df) "RunTime" = some (cells.map (clipCell upper)) ∧
      (∀ i, i < cells.length →
        (∀ x, cells.getD i none = some (Val.num x) → upper < x →
          (cells.map (clipCell upper)).getD i none = some (Val.num upper)) ∧
        (∀ x, cells.getD i none = some (Val.num x) → x ≤ upper →
          (cells.map (clipCell upper)).getD i none = cells.getD i none) ∧
        (cells.getD i none = none → (cells.map (clipCell upper)).getD i none = none)) ∧
      (∀ x, some (Val.num x) ∈ cells.map (clipCell upper) → x ≤ upper) := by
  obtain ⟨upper, hq⟩ := quantileLinear_isSome (numVals_ne_nil hnz hnostr)
  refine ⟨upper, hq, ?_, ?_, ?_⟩
  · unfold clipRunTimeStage
    simp only [h]
    rw [if_pos hnz, if_neg (by rw [hnostr]; exact Bool.false_ne_true)]
    simp only [hq]
    exact getCol_putCol_self df "RunTime" _
  · intro i hi
    refine ⟨?_, ?_, ?_⟩
    · intro x hx hgt
      rw [getD_map_of_lt _ cells i none none hi, hx]
      show (if upper < x then some (Val.num upper) else some (Val.num x))
        = some (Val.num upper)
      rw [if_pos hgt]
    · intro x hx hle
      rw [getD_map_of_lt _ cells i none none hi, hx]
      show (if upper < x then some (Val.num upper) else some (Val.num x))
        = some (Val.num x)
      rw [if_neg (not_lt.mpr hle)]
    · intro hx
      rw [getD_map_of_lt _ cells i none none hi, hx]
      rfl
  · intro x hx
    rw [List.mem_map] at hx
    obtain ⟨c, _, hc⟩ := hx
    cases c with
    | none => exact absurd hc (by simp [clipCell])
    | some v =>
      cases v with
      | str s => exact absurd hc (by simp [clipCell])
      | num y =>
        rw [show clipCell upper (some (Val.num y))
            = (if upper < y then some (Val.num upper) else some (Val.num y))
          from rfl] at hc
        by_cases hgt : upper < y
        · rw [if_pos hgt] at hc
          have : upper = x := by simpa using hc
          rw [← this]
        · rw [if_neg hgt] at hc
          have : y = x := by simpa using hc
          rw [← this]
          exact not_lt.mp hgt

/-- Witness for C6 at a concrete RunTime column. -/
theorem runtime_clipping_witness :
    getCol (DF.mk [Col.mk "RunTime"
        [some (Val.num 1), some (Val.num 2), none, some (Val.num 100)]]) "RunTime"
      = some [some (Val.num 1), some (Val.num 2), none, some (Val.num 100)] ∧
    [some (Val.num 1), some (Val.num 2), none,
      some (Val.num 100)].any (fun c => c.isSome) = true ∧
    hasStrCell [some (Val.num 1), some (Val.num 2), none, some (Val.num 100)] = false ∧
    (∃ upper, quantileLinear (99 / 100) (numVals
        [some (Val.num 1), some (Val.num 2), none, some (Val.num 100)]) = some upper ∧
      getCol (clipRunTimeStage (DF.mk [Col.mk "RunTime"
          [some (Val.num 1), some (Val.num 2), none, some (Val.num 100)]])) "RunTime"
        = some ([some (Val.num 1), some (Val.num 2), none,
            some (Val.num 100)].map (clipCell upper)) ∧
      (∀ i, i < 4 →
        (∀ x, [some (Val.num 1), some (Val.num 2), none,
            some (Val.num 100)].getD i none = some (Val.num x) → upper < x →
          ([some (Val.num 1), some (Val.num 2), none,
            some (Val.num 100)].map (clipCell upper)).getD i none
            = some (Val.num upper)) ∧
        (∀ x, [some (Val.num 1), some (Val.num 2), none,
            some (Val.num 100)].getD i none = some (Val.num x) → x ≤ upper →
          ([some (Val.num 1), some (Val.num 2), none,
            some (Val.num 100)].map (clipCell upper)).getD i none
            = [some (Val.num 1), some (Val.num 2), none,
                some (Val.num 100)].getD i none) ∧
        ([some (Val.num 1), some (Val.num 2), none,
            some (Val.num 100)].getD i none = none →
          ([some (Val.num 1), some (Val.num 2), none,
            some (Val.num 100)].map (clipCell upper)).getD i none = none)) ∧
      (∀ x, some (Val.num x) ∈ [some (Val.num 1), some (Val.num 2), none,
          some (Val.num 100)].map (clipCell upper) → x ≤ upper)) :=
  ⟨by decide, by decide, by decide,
    runtime_clipping _ _ (by decide) (by decide) (by decide)⟩

/-! ### Scaling lemmas -/

theorem foldl_min_le (l : List ℚ) (a : ℚ) :
    l.foldl min a ≤ a ∧ ∀ y ∈ l, l.foldl min a ≤ y := by
  induction l generalizing a with
  | nil => exact ⟨le_refl a, by simp⟩
  | cons y ys ih =>
    obtain ⟨h1, h2⟩ := ih (min a y)
    rw [List.foldl_cons]
    refine ⟨le_trans h1 (min_le_left a y), ?_⟩
    intro z hz
    rcases List.mem_cons.mp hz with rfl | hzs
    · exact le_trans h1 (min_le_right a z)
    · exact h2 z hzs

theorem foldl_min_mem (l : List ℚ) (a : ℚ) :
    l.foldl min a = a ∨ l.foldl min a ∈ l := by
  induction l generalizing a with
  | nil => exact Or.inl rfl
  | cons y ys ih =>
    rw [List.foldl_cons]
    rcases ih (min a y) with h | h
    · rcases min_choice a y with hm | hm
      · exact Or.inl (h.trans hm)
      · refine Or.inr ?_
        rw [h, hm]
        exact List.mem_cons_self y ys
    · exact Or.inr (List.mem_cons_of_mem _ h)

theorem foldl_max_mem (l : List ℚ) (a : ℚ) :
    l.foldl max a = a ∨ l.foldl max a ∈ l := by
  induction l generalizing a with
  | nil => exact Or.inl rfl
  | cons y ys ih =>
    rw [List.foldl_cons]
    rcases ih (max a y) with h | h
    · rcases max_choice a y with hm | hm
      · exact Or.inl (h.trans hm)
      · refine Or.inr ?_
        rw [h, hm]
        exact List.mem_cons_self y ys
    · exact Or.inr (List.mem_cons_of_mem _ h)

theorem getD_mem_of_lt (l : List Cell) (d : Cell) {i : Nat} (h : i < l.length) :
    l.getD i d ∈ l := by
  rw [List.getD_eq_getElem l d h]
  exact List.getElem_mem h

theorem le_foldl_max (l : List ℚ) (a : ℚ) :
    a ≤ l.foldl max a ∧ ∀ y ∈ l, y ≤ l.foldl max a := by
  induction l generalizing a with
  | nil => exact ⟨le_refl a, by simp⟩
  | cons y ys ih =>
    obtain ⟨h1, h2⟩ := ih (max a y)
    rw [List.foldl_cons]
    refine ⟨le_trans (le_max_left a y) h1, ?_⟩
    intro z hz
    rcases List.mem_cons.mp hz with rfl | hzs
    · exact le_trans (le_max_right a z) h1
    · exact h2 z hzs

theorem hasCol_of_getCol_some {df : DF} {n : String} {cells : List Cell}
    (h : getCol df n = some cells) : hasCol df n = true := by
  rw [hasCol_eq_isSome]
  rw [getCol_eq_findCol] at h
  cases hf : findCol df n with
  | none => rw [hf] at h; exact Option.noConfusion h
  | some c => rfl

/-- A numeric (no-string) column is unchanged by the `astype(float)`
conversion. -/
theorem floatCell_map_id {cells : List Cell} (hnostr : hasStrCell cells = false) :
    cells.map (fun x => (floatCell x).getD none) = cells := by
  have hall : ∀ c ∈ cells, (floatCell c).getD none = c := by
    intro c hc
    cases c with
    | none => rfl
    | some v =>
      cases v with
      | num q => rfl
      | str s =>
        exfalso
        have : hasStrCell cells = true := by
          unfold hasStrCell
          rw [List.any_eq_true]
          exact ⟨some (Val.str s), hc, rfl⟩
        rw [hnostr] at this
        exact Bool.false_ne_true this
  calc cells.map (fun x => (floatCell x).getD none)
      = cells.map id := List.map_congr_left hall
    _ = cells := List.map_id cells

theorem getCol_scaleStage_of_ok (df : DF) (t : String) (cells : List Cell)
    (ht : t ∈ numericCols) (h : getCol df t = some cells)
    (hok : floatOkOf df = true) :
    (cells.any (fun x => x.isSome) = false → getCol (scaleStage df) t = some cells) ∧
    (cells.any (fun x => x.isSome) = true →
      getCol (scaleStage df) t
        = some (minmaxScale (cells.map (fun x => (floatCell x).getD none)))) := by
  have htS : t ∈ scalerColsOf df :=
    List.mem_filter.mpr ⟨ht, hasCol_of_getCol_some h⟩
  have hSne : ¬ (scalerColsOf df).isEmpty = true := by
    rw [List.isEmpty_iff]
    exact List.ne_nil_of_mem htS
  constructor
  · intro hno
    have htV : ¬ t ∈ validColsOf df := by
      intro hmem
      have := (List.mem_filter.mp hmem).2
      rw [h] at this
      rw [show (some cells).getD [] = cells from rfl] at this
      rw [hno] at this
      exact Bool.false_ne_true this
    unfold scaleStage
    rw [if_neg hSne]
    by_cases hV : (validColsOf df).isEmpty = true
    · rw [if_pos hV]
      exact h
    · rw [if_neg hV, if_pos hok, getCol_mapCols]
      cases hf : findCol df t with
      | none =>
        rw [getCol_eq_findCol, hf] at h
        exact Option.noConfusion h
      | some c =>
        have hname : c.name = t := findCol_name hf
        have hcc : c.cells = cells := by
          rw [getCol_eq_findCol, hf] at h
          exact Option.some_injective _ h
        have hcont : (validColsOf df).contains c.name = false := by
          rw [hname]
          cases hc : (validColsOf df).contains t with
          | false => rfl
          | true => exact absurd (List.mem_of_elem_eq_true hc) htV
        simp only [hf, Option.map_some']
        rw [hcont]
        simp [hcc]
  · intro hyes
    have htV : t ∈ validColsOf df := by
      refine List.mem_filter.mpr ⟨htS, ?_⟩
      rw [h]
      exact hyes
    have hVne : ¬ (validColsOf df).isEmpty = true := by
      rw [List.isEmpty_iff]
      exact List.ne_nil_of_mem htV
    unfold scaleStage
    rw [if_neg hSne, if_neg hVne, if_pos hok, getCol_mapCols]
    cases hf : findCol df t with
    | none =>
      rw [getCol_eq_findCol, hf] at h
      exact Option.noConfusion h
    | some c =>
      have hname : c.name = t := findCol_name hf
      have hcc : c.cells = cells := by
        rw [getCol_eq_findCol, hf] at h
        exact Option.some_injective _ h
      have hcont : (validColsOf df).contains c.name = true := by
        rw [hname]
        exact List.elem_eq_true_of_mem htV
      simp only [hf, Option.map_some']
      rw [hcont]
      simp [hcc]

/-- C5 (Min-max scaling): with every scalable cell float-convertible,
each numeric column present and holding at least one non-missing value
is linearly rescaled by subtracting its observed minimum and dividing
by its observed range: with distinct minimum and maximum the minimum
maps to 0 and the maximum to 1; a zero-variance column maps uniformly
to the single constant 0 (without raising — the stage is total); a
column that is present but entirely missing is excluded and left
unchanged. -/
theorem minmax_scaling (df : DF) (t : String) (cells : List Cell)
    (ht : t ∈ numericCols) (h : getCol df t = some cells)
    (hnostr : hasStrCell cells = false)
    (hok : floatOkOf df = true) :
    (cells.any (fun x => x.isSome) = false → getCol (scaleStage df) t = some cells) ∧
    (cells.any (fun x => x.isSome) = true →
      getCol (scaleStage df) t = some (minmaxScale cells) ∧
      ∃ mn mx, listMin (numVals cells) = some mn ∧ listMax (numVals cells) = some mx ∧
        mn ∈ numVals cells ∧ mx ∈ numVals cells ∧
        (∀ v ∈ numVals cells, mn ≤ v ∧ v ≤ mx) ∧
        (mn ≠ mx →
          ∀ i, i < cells.length → ∀ v, cells.getD i none = some (Val.num v) →
            (minmaxScale cells).getD i none = some (Val.num ((v - mn) / (mx - mn))) ∧
            (v = mn → (minmaxScale cells).getD i none = some (Val.num 0)) ∧
            (v = mx → (minmaxScale cells).getD i none = some (Val.num 1))) ∧
        (mn = mx →
          ∀ i, i < cells.length → ∀ v, cells.getD i none = some (Val.num v) →
            (minmaxScale cells).getD i none = some (Val.num 0)) ∧
        (∀ i, i < cells.length → cells.getD i none = none →
          (minmaxScale cells).getD i none = none)) := by
  obtain ⟨hmiss, hsome⟩ := getCol_scaleStage_of_ok df t cells ht h hok
  refine ⟨hmiss, ?_⟩
  intro hyes
  rw [floatCell_map_id hnostr] at hsome
  refine ⟨hsome hyes, ?_⟩
  have hne : numVals cells ≠ [] := numVals_ne_nil hyes hnostr
  cases hxs : numVals cells with
  | nil => exact absurd hxs hne
  | cons x xs =>
    have hminspec := foldl_min_le xs x
    have hmaxspec := le_foldl_max xs x
    have hmnmem : xs.foldl min x ∈ x :: xs := by
      rcases foldl_min_mem xs x with hm | hm
      · rw [hm]; exact List.mem_cons_self x xs
      · exact List.mem_cons_of_mem _ hm
    have hmxmem : xs.foldl max x ∈ x :: xs := by
      rcases foldl_max_mem xs x with hm | hm
      · rw [hm]; exact List.mem_cons_self x xs
      · exact List.mem_cons_of_mem _ hm
    have hbounds : ∀ v ∈ x :: xs, xs.foldl min x ≤ v ∧ v ≤ xs.foldl max x := by
      intro v hv
      rcases List.mem_cons.mp hv with rfl | hvs
      · exact ⟨hminspec.1, hmaxspec.1⟩
      · exact ⟨hminspec.2 v hvs, hmaxspec.2 v hvs⟩
    have hres : minmaxScale cells = cells.map (fun c =>
        match c with
        | some (Val.num v) => some (Val.num ((v - xs.foldl min x) /
            (if xs.foldl max x - xs.foldl min x = 0 then 1
             else xs.foldl max x - xs.foldl min x)))
        | other => other) := by
      unfold minmaxScale
      rw [hxs]
      rfl
    refine ⟨xs.foldl min x, xs.foldl max x, rfl, rfl, hmnmem, hmxmem, hbounds,
      ?_, ?_, ?_⟩
    · intro hdiff i hi v hc
      have hd0 : ¬ (xs.foldl max x - xs.foldl min x = 0) := by
        intro hc0
        exact hdiff (sub_eq_zero.mp hc0).symm
      have hstep : (minmaxScale cells).getD i none
          = some (Val.num ((v - xs.foldl min x) / (xs.foldl max x - xs.foldl min x))) := by
        rw [hres, getD_map_of_lt _ cells i none none hi, hc]
        show some (Val.num ((v - xs.foldl min x) /
            (if xs.foldl max x - xs.foldl min x = 0 then 1
             else xs.foldl max x - xs.foldl min x)))
          = some (Val.num ((v - xs.foldl min x) / (xs.foldl max x - xs.foldl min x)))
        rw [if_neg hd0]
      refine ⟨hstep, ?_, ?_⟩
      · intro hvmn
        rw [hstep, hvmn]
        norm_num
      · intro hvmx
        rw [hstep, hvmx, div_self (by exact hd0)]
    · intro heq i hi v hc
      have hvmem : v ∈ x :: xs := by
        rw [← hxs]
        unfold numVals
        rw [List.mem_filterMap]
        refine ⟨some (Val.num v), ?_, rfl⟩
        rw [← hc]
        exact getD_mem_of_lt cells none hi
      have hvb := hbounds v hvmem
      have hveq : v = xs.foldl min x := le_antisymm (heq ▸ hvb.2) hvb.1
      rw [hres, getD_map_of_lt _ cells i none none hi, hc]
      show some (Val.num ((v - xs.foldl min x) /
          (if xs.foldl max x - xs.foldl min x = 0 then 1
           else xs.foldl max x - xs.foldl min x)))
        = some (Val.num 0)
      rw [if_pos (by rw [← heq]; ring), hveq]
      norm_num
    · intro i hi hc
      rw [hres, getD_map_of_lt _ cells i none none hi, hc]

/-- Witness for C5 at a concrete RATING column. -/
theorem minmax_scaling_witness :
    ("RATING" ∈ numericCols) ∧
    getCol (DF.mk [Col.mk "RATING"
        [some (Val.num 1), some (Val.num 3), some (Val.num 2)]]) "RATING"
      = some [some (Val.num 1), some (Val.num 3), some (Val.num 2)] ∧
    hasStrCell [some (Val.num 1), some (Val.num 3), some (Val.num 2)] = false ∧
    floatOkOf (DF.mk [Col.mk "RATING"
        [some (Val.num 1), some (Val.num 3), some (Val.num 2)]]) = true ∧
    getCol (scaleStage (DF.mk [Col.mk "RATING"
        [some (Val.num 1), some (Val.num 3), some (Val.num 2)]])) "RATING"
      = some (minmaxScale [some (Val.num 1), some (Val.num 3), some (Val.num 2)]) :=
  ⟨by decide, by decide, by decide, by decide,
    ((minmax_scaling _ "RATING" _ (by decide) (by decide) (by decide)
      (by decide)).2 (by decide)).1⟩

/-! ### Deduplication lemmas -/

theorem getD_mem_of_lt' {α : Type} (l : List α) (d : α) {i : Nat}
    (h : i < l.length) : l.getD i d ∈ l := by
  rw [List.getD_eq_getElem l d h]
  exact List.getElem_mem h

theorem range_map_getD {α : Type} (l : List α) (d : α) :
    (List.range l.length).map (fun i => l.getD i d) = l := by
  induction l with
  | nil => rfl
  | cons x xs ih =>
    rw [show (x :: xs).length = xs.length + 1 from rfl, List.range_succ_eq_map,
      List.map_cons, List.map_map]
    have he : ((fun i => (x :: xs).getD i d) ∘ Nat.succ) = (fun i => xs.getD i d) :=
      funext (fun i => rfl)
    rw [he, ih]
    rfl

theorem mem_of_mem_keepFirsts {x : List Cell} :
    ∀ (seen l : List (List Cell)), x ∈ keepFirsts seen l → x ∈ l := by
  intro seen l
  induction l generalizing seen with
  | nil => intro h; exact absurd h (by simp [keepFirsts])
  | cons r rs ih =>
    intro h
    rw [keepFirsts] at h
    by_cases hr : r ∈ seen
    · rw [if_pos hr] at h
      exact List.mem_cons_of_mem _ (ih seen h)
    · rw [if_neg hr] at h
      rcases List.mem_cons.mp h with rfl | h2
      · exact List.mem_cons_self x rs
      · exact List.mem_cons_of_mem _ (ih (r :: seen) h2)

theorem dedupRows_nil : dedupRows [] = [] := by
  rw [dedupRows]

theorem dedupRows_cons (r : List Cell) (rs : List (List Cell)) :
    dedupRows (r :: rs) = r :: dedupRows (rs.filter (fun x => x ≠ r)) := by
  rw [dedupRows]

theorem keepFirsts_eq_dedupRows (l : List (List Cell)) :
    ∀ seen, keepFirsts seen l = dedupRows (l.filter (fun x => decide (¬ x ∈ seen))) := by
  induction l with
  | nil =>
    intro seen
    show ([] : List (List Cell)) = dedupRows (List.filter _ [])
    rw [show List.filter (fun x => decide (¬ x ∈ seen)) [] = [] from rfl, dedupRows_nil]
  | cons r rs ih =>
    intro seen
    rw [keepFirsts]
    by_cases hr : r ∈ seen
    · rw [if_pos hr, List.filter_cons_of_neg (by simpa using hr), ih seen]
    · rw [if_neg hr, List.filter_cons_of_pos (by simpa using hr), dedupRows_cons,
        ih (r :: seen)]
      have hp : ∀ x ∈ rs, (decide (¬ x ∈ r :: seen))
          = (decide (x ≠ r) && decide (¬ x ∈ seen)) := by
        intro x _
        by_cases h1 : x = r
        · simp [h1]
        · by_cases h2 : x ∈ seen <;> simp [h1, h2]
      rw [List.filter_congr hp, ← List.filter_filter]

theorem keepFirsts_nil_eq (l : List (List Cell)) : keepFirsts [] l = dedupRows l := by
  rw [keepFirsts_eq_dedupRows l []]
  congr 1
  rw [List.filter_eq_self]
  intro a _
  simp

theorem mem_dedupRows (x : List Cell) :
    ∀ (l : List (List Cell)), x ∈ dedupRows l → x ∈ l
  | [], h => absurd h (by simp [dedupRows])
  | r :: rs, h => by
    rw [dedupRows] at h
    rcases List.mem_cons.mp h with rfl | h2
    · exact List.mem_cons_self x rs
    · exact List.mem_cons_of_mem _
        (List.mem_of_mem_filter (mem_dedupRows x (rs.filter (fun y => y ≠ r)) h2))
termination_by l => l.length
decreasing_by
  simp only [List.length_cons]
  exact Nat.lt_succ_of_le (List.length_filter_le _ _)

theorem mem_dedupRows_of_mem (x : List Cell) :
    ∀ (l : List (List Cell)), x ∈ l → x ∈ dedupRows l
  | [], h => absurd h (List.not_mem_nil x)
  | r :: rs, h => by
    rw [dedupRows]
    by_cases hx : x = r
    · rw [hx]; exact List.mem_cons_self r _
    · rcases List.mem_cons.mp h with rfl | h2
      · exact absurd rfl hx
      · refine List.mem_cons_of_mem _ ?_
        exact mem_dedupRows_of_mem x (rs.filter (fun y => y ≠ r))
          (List.mem_filter.mpr ⟨h2, by simpa using hx⟩)
termination_by l => l.length
decreasing_by
  simp only [List.length_cons]
  exact Nat.lt_succ_of_le (List.length_filter_le _ _)

theorem dedupRows_sublist : ∀ (l : List (List Cell)), (dedupRows l).Sublist l
  | [] => by
    rw [dedupRows_nil]
  | r :: rs => by
    rw [dedupRows_cons]
    exact List.Sublist.cons₂ r
      ((dedupRows_sublist (rs.filter (fun y => y ≠ r))).trans (List.filter_sublist rs))
termination_by l => l.length
decreasing_by
  simp only [List.length_cons]
  exact Nat.lt_succ_of_le (List.length_filter_le _ _)

theorem dedupRows_nodup : ∀ (l : List (List Cell)), (dedupRows l).Nodup
  | [] => by rw [dedupRows_nil]; exact List.nodup_nil
  | r :: rs => by
    rw [dedupRows_cons]
    refine List.Nodup.cons ?_ (dedupRows_nodup (rs.filter (fun y => y ≠ r)))
    intro hr
    have hmem := (List.mem_filter.mp (mem_dedupRows r _ hr)).2
    simp at hmem
termination_by l => l.length
decreasing_by
  simp only [List.length_cons]
  exact Nat.lt_succ_of_le (List.length_filter_le _ _)

theorem dedupRows_idem : ∀ (l : List (List Cell)), dedupRows (dedupRows l) = dedupRows l
  | [] => by rw [dedupRows_nil]; exact dedupRows_nil
  | r :: rs => by
    rw [dedupRows_cons, dedupRows_cons]
    have hfl : (dedupRows (rs.filter (fun x => x ≠ r))).filter (fun x => x ≠ r)
        = dedupRows (rs.filter (fun x => x ≠ r)) := by
      rw [List.filter_eq_self]
      intro a ha
      exact (List.mem_filter.mp (mem_dedupRows a _ ha)).2
    rw [hfl, dedupRows_idem (rs.filter (fun x => x ≠ r))]
termination_by l => l.length
decreasing_by
  simp only [List.length_cons]
  exact Nat.lt_succ_of_le (List.length_filter_le _ _)

/-! ### Row/column conversion lemmas -/

theorem rowAt_length (df : DF) (i : Nat) : (rowAt df i).length = df.cols.length :=
  List.length_map _ _

theorem mem_toRows_length {df : DF} {r : List Cell} (h : r ∈ toRows df) :
    r.length = df.cols.length := by
  unfold toRows at h
  rw [List.mem_map] at h
  obtain ⟨i, _, rfl⟩ := h
  exact rowAt_length df i

theorem fromRows_names (names : List String) (rows : List (List Cell)) :
    (fromRows names rows).cols.map (fun c => c.name) = names := by
  unfold fromRows
  rw [List.map_map]
  have he : ((fun c : Col => c.name) ∘ (fun j =>
      (⟨names.getD j "", rows.map (fun r => r.getD j none)⟩ : Col)))
      = (fun j => names.getD j "") := funext (fun j => rfl)
  rw [he]
  exact range_map_getD names ""

theorem toRows_fromRows (names : List String) (rows : List (List Cell))
    (hne : names ≠ []) (hlen : ∀ r ∈ rows, r.length = names.length) :
    toRows (fromRows names rows) = rows := by
  obtain ⟨n0, ns, hcons⟩ := List.exists_cons_of_ne_nil hne
  have hnr : nrows (fromRows names rows) = rows.length := by
    unfold nrows fromRows
    rw [hcons]
    rw [show (n0 :: ns).length = ns.length + 1 from rfl, List.range_succ_eq_map]
    simp
  unfold toRows
  rw [hnr]
  have hrow : ∀ i ∈ List.range rows.length,
      rowAt (fromRows names rows) i = rows.getD i [] := by
    intro i hi
    rw [List.mem_range] at hi
    unfold rowAt fromRows
    rw [List.map_map]
    have he : ((fun c : Col => c.cells.getD i none) ∘ (fun j =>
        (⟨names.getD j "", rows.map (fun r => r.getD j none)⟩ : Col)))
        = (fun j => (rows.map (fun r => r.getD j none)).getD i none) :=
      funext (fun j => rfl)
    rw [he]
    have he2 : ∀ j ∈ List.range names.length,
        (rows.map (fun r => r.getD j none)).getD i none
          = (rows.getD i []).getD j none := by
      intro j _
      rw [getD_map_of_lt (fun r => r.getD j none) rows i [] none hi]
    rw [List.map_congr_left he2]
    have hl : (rows.getD i []).length = names.length :=
      hlen _ (getD_mem_of_lt' rows [] hi)
    rw [← hl]
    exact range_map_getD (rows.getD i []) none
  rw [List.map_congr_left hrow]
  exact range_map_getD rows []

theorem dropDuplicates_eq (df : DF) :
    dropDuplicates df
      = fromRows (df.cols.map (fun c => c.name)) (dedupRows (toRows df)) := by
  unfold dropDuplicates
  rw [keepFirsts_nil_eq]

theorem toRows_dropDuplicates (df : DF) :
    toRows (dropDuplicates df) = dedupRows (toRows df) := by
  rw [dropDuplicates_eq]
  cases hc : df.cols with
  | nil =>
    have h1 : toRows df = [] := by
      unfold toRows nrows
      rw [hc]
      rfl
    rw [h1, dedupRows_nil]
    rfl
  | cons c cs =>
    refine toRows_fromRows _ _ (by simp) ?_
    intro r hr
    have h2 : r ∈ toRows df := mem_dedupRows r _ hr
    rw [mem_toRows_length h2, hc, List.length_map]

theorem dropDuplicates_idem (df : DF) :
    dropDuplicates (dropDuplicates df) = dropDuplicates df := by
  rw [dropDuplicates_eq (dropDuplicates df), toRows_dropDuplicates, dedupRows_idem]
  rw [show (dropDuplicates df).cols.map (fun c => c.name)
      = df.cols.map (fun c => c.name) from by
    rw [dropDuplicates_eq df]
    exact fromRows_names _ _]
  exact (dropDuplicates_eq df).symm

/-- C8 (Deduplication): the deduplication stage removes exactly the
rows that duplicate an earlier row across all columns — its row
sequence equals the recursive keep-the-first-occurrence specification
dedupRows — so the surviving rows form a subsequence of the original
rows (original relative order preserved), are pairwise distinct, and
have the same membership as the original rows; and the stage is
idempotent: deduplicating twice equals deduplicating once. -/
theorem dedup_spec (df : DF) :
    toRows (dropDuplicates df) = dedupRows (toRows df) ∧
    (dedupRows (toRows df)).Sublist (toRows df) ∧
    (dedupRows (toRows df)).Nodup ∧
    (∀ r, r ∈ toRows df ↔ r ∈ dedupRows (toRows df)) ∧
    dropDuplicates (dropDuplicates df) = dropDuplicates df :=
  ⟨toRows_dropDuplicates df, dedupRows_sublist _, dedupRows_nodup _,
    fun r => ⟨fun h => mem_dedupRows_of_mem r _ h, fun h => mem_dedupRows r _ h⟩,
    dropDuplicates_idem df⟩

/-! ### Shape-invariant lemmas -/

theorem EqLen_mapCols {df : DF} (f : Col → List Cell)
    (hf : ∀ c ∈ df.cols, (f c).length = c.cells.length) (h : EqLen df) :
    EqLen (mapCols df f) := by
  intro c1 h1 c2 h2
  unfold mapCols at h1 h2
  rw [List.mem_map] at h1 h2
  obtain ⟨a1, ha1, rfl⟩ := h1
  obtain ⟨a2, ha2, rfl⟩ := h2
  show (f a1).length = (f a2).length
  rw [hf a1 ha1, hf a2 ha2]
  exact h a1 ha1 a2 ha2

theorem EqLen_mapNamed {df : DF} (n : String) (g : List Cell → List Cell)
    (hg : ∀ cs, (g cs).length = cs.length) (h : EqLen df) :
    EqLen (mapNamed df n g) := by
  refine EqLen_mapCols _ ?_ h
  intro c _
  by_cases hb : (c.name == n) = true <;> simp [mapNamed, hb, hg]

theorem EqLen_guard {df : DF} (n : String) (g : List Cell → List Cell)
    (hg : ∀ cs, (g cs).length = cs.length) (h : EqLen df) :
    EqLen (if hasCol df n then mapNamed df n g else df) := by
  by_cases hb : hasCol df n
  · rw [if_pos hb]; exact EqLen_mapNamed n g hg h
  · rw [if_neg hb]; exact h

theorem EqLen_putCol {df : DF} {n : String} {cs : List Cell}
    (h : EqLen df) (hlen : ∀ c ∈ df.cols, cs.length = c.cells.length) :
    EqLen (putCol df n cs) := by
  unfold putCol
  by_cases hp : (df.cols.any fun c => c.name == n) = true
  · rw [if_pos hp]
    intro c1 h1 c2 h2
    simp only [List.mem_map] at h1 h2
    obtain ⟨a1, ha1, rfl⟩ := h1
    obtain ⟨a2, ha2, rfl⟩ := h2
    by_cases b1 : (a1.name == n) = true
    · by_cases b2 : (a2.name == n) = true
      · rw [if_pos b1, if_pos b2]
      · rw [if_pos b1, if_neg b2]
        exact hlen a2 ha2
    · by_cases b2 : (a2.name == n) = true
      · rw [if_neg b1, if_pos b2]
        exact (hlen a1 ha1).symm
      · rw [if_neg b1, if_neg b2]
        exact h a1 ha1 a2 ha2
  · rw [if_neg hp]
    intro c1 h1 c2 h2
    rw [List.mem_append] at h1 h2
    rcases h1 with h1 | h1 <;> rcases h2 with h2 | h2
    · exact h c1 h1 c2 h2
    · rw [List.mem_singleton] at h2
      subst h2
      exact (hlen c1 h1).symm
    · rw [List.mem_singleton] at h1
      subst h1
      exact hlen c2 h2
    · rw [List.mem_singleton] at h1 h2
      subst h1
      subst h2
      rfl

theorem getCol_some_mem {df : DF} {n : String} {cells : List Cell}
    (h : getCol df n = some cells) : ∃ c ∈ df.cols, c.cells = cells := by
  rw [getCol_eq_findCol] at h
  cases hf : findCol df n with
  | none => rw [hf] at h; exact Option.noConfusion h
  | some c0 =>
    rw [hf] at h
    exact ⟨c0, findCol_mem hf, Option.some_injective _ h⟩

theorem EqLen_putCol_fromCol {df : DF} (h : EqLen df) {src n : String}
    {cells : List Cell} (hg : getCol df src = some cells) (f : Cell → Cell) :
    EqLen (putCol df n (cells.map f)) := by
  refine EqLen_putCol h ?_
  obtain ⟨c0, hc0mem, hc0⟩ := getCol_some_mem hg
  intro c hc
  rw [List.length_map, ← hc0]
  exact h c0 hc0mem c hc

theorem EqLen_fromRows (names : List String) (rows : List (List Cell)) :
    EqLen (fromRows names rows) := by
  intro c1 h1 c2 h2
  unfold fromRows at h1 h2
  rw [List.mem_map] at h1 h2
  obtain ⟨j1, _, rfl⟩ := h1
  obtain ⟨j2, _, rfl⟩ := h2
  show (rows.map _).length = (rows.map _).length
  rw [List.length_map, List.length_map]

theorem EqLen_dropDuplicates (df : DF) : EqLen (dropDuplicates df) :=
  EqLen_fromRows _ _

theorem EqLen_textNormStage {df : DF} (h : EqLen df) : EqLen (textNormStage df) := by
  rw [textNormStage_eq]
  exact EqLen_guard _ _ (fun cs => List.length_map cs _)
    (EqLen_guard _ _ (fun cs => List.length_map cs _)
      (EqLen_guard _ _ (fun cs => List.length_map cs _)
        (EqLen_guard _ _ (fun cs => List.length_map cs _) h)))

theorem EqLen_yearStage {df : DF} (h : EqLen df) : EqLen (yearStage df) := by
  unfold yearStage
  exact EqLen_guard _ _ (fun cs => List.length_map cs _) h

theorem EqLen_votesStage {df : DF} (h : EqLen df) : EqLen (votesStage df) := by
  unfold votesStage
  exact EqLen_guard _ _ (fun cs => List.length_map cs _) h

theorem EqLen_grossStage {df : DF} (h : EqLen df) : EqLen (grossStage df) := by
  unfold grossStage
  exact EqLen_guard _ _ (fun cs => List.length_map cs _) h

theorem safe_median_fill_length (cells : List Cell) :
    (safe_median_fill cells).length = cells.length := by
  unfold safe_median_fill
  by_cases hb : (hasStrCell cells) = true
  · rw [if_pos hb]
  · rw [if_neg hb]
    cases hm : medianQ (numVals cells) with
    | none => rfl
    | some m => exact List.length_map cells _

theorem EqLen_medianFillStage {df : DF} (h : EqLen df) : EqLen (medianFillStage df) := by
  rw [medianFillStage_eq]
  exact EqLen_guard _ _ safe_median_fill_length
    (EqLen_guard _ _ safe_median_fill_length
      (EqLen_guard _ _ safe_median_fill_length
        (EqLen_guard _ _ safe_median_fill_length h)))

theorem EqLen_genreModeStage {df : DF} (h : EqLen df) : EqLen (genreModeStage df) := by
  unfold genreModeStage
  cases hg : getCol df "GENRE" with
  | none => exact h
  | some cells =>
    simp only [hg]
    cases hm : modeVal cells with
    | some m =>
      simp only [hm]
      exact EqLen_putCol_fromCol h hg _
    | none =>
      simp only [hm]
      exact EqLen_putCol_fromCol h hg _

theorem EqLen_featureStage {df : DF} (h : EqLen df) : EqLen (featureStage df) := by
  unfold featureStage
  cases hs : getCol df "STARS" with
  | none =>
    simp only [hs]
    cases hg : getCol df "GENRE" with
    | none => exact h
    | some genre =>
      simp only [hg]
      exact EqLen_putCol_fromCol h hg _
  | some stars =>
    simp only [hs]
    have h1 : EqLen (putCol df "num_stars" (stars.map tokenCountCell)) :=
      EqLen_putCol_fromCol h hs _
    cases hg : getCol (putCol df "num_stars" (stars.map tokenCountCell)) "GENRE" with
    | none =>
      simp only [hg]
      exact h1
    | some genre =>
      simp only [hg]
      exact EqLen_putCol_fromCol h1 hg _

theorem EqLen_clipRunTimeStage {df : DF} (h : EqLen df) : EqLen (clipRunTimeStage df) := by
  unfold clipRunTimeStage
  cases hr : getCol df "RunTime" with
  | none => exact h
  | some cells =>
    simp only [hr]
    by_cases h1 : (cells.any fun c => c.isSome) = true
    · rw [if_pos h1]
      by_cases h2 : (hasStrCell cells) = true
      · rw [if_pos h2]; exact h
      · rw [if_neg h2]
        cases hq : quantileLinear (99 / 100) (numVals cells) with
        | none => exact h
        | some upper =>
          simp only [hq]
          exact EqLen_putCol_fromCol h hr _
    · rw [if_neg h1]; exact h

theorem minmaxScale_length (cells : List Cell) :
    (minmaxScale cells).length = cells.length := by
  unfold minmaxScale
  cases h1 : listMin (numVals cells) with
  | none => rfl
  | some mn =>
    cases h2 : listMax (numVals cells) with
    | none => rfl
    | some mx => exact List.length_map cells _

theorem EqLen_scaleStage {df : DF} (h : EqLen df) : EqLen (scaleStage df) := by
  unfold scaleStage
  by_cases h1 : ((scalerColsOf df).isEmpty) = true
  · rw [if_pos h1]; exact h
  · rw [if_neg h1]
    by_cases h2 : ((validColsOf df).isEmpty) = true
    · rw [if_pos h2]; exact h
    · rw [if_neg h2]
      by_cases h3 : (floatOkOf df) = true
      · rw [if_pos h3]
        refine EqLen_mapCols _ ?_ h
        intro c _
        by_cases hc : ((validColsOf df).contains c.name) = true
        · rw [if_pos hc, minmaxScale_length, List.length_map]
        · rw [if_neg hc]
      · rw [if_neg h3]; exact h

/-- C9 (Table shape invariant): an input table whose columns all have
equal length keeps that invariant after every stage of the cleaning
pipeline — deduplication, text normalisation, the three coercions,
median imputation, mode imputation, the stage that adds the derived
num_stars / num_genres columns, clipping, and scaling — and hence after
the full pipeline. -/
theorem shape_invariant (df : DF) (h : EqLen df) :
    EqLen (dropDuplicates df) ∧
    EqLen (textNormStage (dropDuplicates df)) ∧
    EqLen (yearStage (textNormStage (dropDuplicates df))) ∧
    EqLen (votesStage (yearStage (textNormStage (dropDuplicates df)))) ∧
    EqLen (grossStage (votesStage (yearStage (textNormStage (dropDuplicates df))))) ∧
    EqLen (medianFillStage (grossStage (votesStage (yearStage
      (textNormStage (dropDuplicates df)))))) ∧
    EqLen (genreModeStage (medianFillStage (grossStage (votesStage (yearStage
      (textNormStage (dropDuplicates df))))))) ∧
    EqLen (featureStage (genreModeStage (medianFillStage (grossStage (votesStage
      (yearStage (textNormStage (dropDuplicates df)))))))) ∧
    EqLen (clipRunTimeStage (featureStage (genreModeStage (medianFillStage
      (grossStage (votesStage (yearStage (textNormStage (dropDuplicates df))))))))) ∧
    EqLen (clean_dataframe df) := by
  have h1 := EqLen_dropDuplicates df
  have h2 := EqLen_textNormStage h1
  have h3 := EqLen_yearStage h2
  have h4 := EqLen_votesStage h3
  have h5 := EqLen_grossStage h4
  have h6 := EqLen_medianFillStage h5
  have h7 := EqLen_genreModeStage h6
  have h8 := EqLen_featureStage h7
  have h9 := EqLen_clipRunTimeStage h8
  have h10 := EqLen_scaleStage h9
  exact ⟨h1, h2, h3, h4, h5, h6, h7, h8, h9, h10⟩

/-- Witness for C9 at a concrete two-column table. -/
theorem shape_invariant_witness :
    EqLen (DF.mk [Col.mk "GENRE" [some (Val.str "Drama"), none],
        Col.mk "RATING" [some (Val.num 2), some (Val.num 4)]]) ∧
    EqLen (clean_dataframe (DF.mk [Col.mk "GENRE" [some (Val.str "Drama"), none],
        Col.mk "RATING" [some (Val.num 2), some (Val.num 4)]])) :=
  ⟨by decide,
    (shape_invariant (DF.mk [Col.mk "GENRE" [some (Val.str "Drama"), none],
        Col.mk "RATING" [some (Val.num 2), some (Val.num 4)]])
      (by decide)).2.2.2.2.2.2.2.2.2⟩

/-! ### Column tracking through the whole pipeline -/

theorem getCol_fromRows_of_mem (names : List String) (rows : List (List Cell))
    {n : String} (hn : n ∈ names) :
    ∃ cs, getCol (fromRows names rows) n = some cs := by
  have hex : ∃ c ∈ (fromRows names rows).cols, (c.name == n) = true := by
    obtain ⟨j, hj, hget⟩ := List.mem_iff_getElem.mp hn
    refine ⟨⟨names.getD j "", rows.map (fun r => r.getD j none)⟩, ?_, ?_⟩
    · unfold fromRows
      rw [List.mem_map]
      exact ⟨j, List.mem_range.mpr hj, rfl⟩
    · have : names.getD j "" = n := by
        rw [List.getD_eq_getElem names "" hj]
        exact hget
      simpa using this
  have hs : (findCol (fromRows names rows) n).isSome := by
    unfold findCol
    rw [List.find?_isSome]
    obtain ⟨c, hc, hp⟩ := hex
    exact ⟨c, hc, hp⟩
  cases hf : findCol (fromRows names rows) n with
  | none => rw [hf] at hs; exact absurd hs (by simp)
  | some c => exact ⟨c.cells, by rw [getCol_eq_findCol, hf]; rfl⟩

theorem getCol_clipRunTimeStage_ne (df : DF) {m : String} (h : m ≠ "RunTime") :
    getCol (clipRunTimeStage df) m = getCol df m := by
  unfold clipRunTimeStage
  cases hr : getCol df "RunTime" with
  | none => rfl
  | some cells =>
    simp only [hr]
    by_cases h1 : (cells.any fun c => c.isSome) = true
    · rw [if_pos h1]
      by_cases h2 : (hasStrCell cells) = true
      · rw [if_pos h2]
      · rw [if_neg h2]
        cases hq : quantileLinear (99 / 100) (numVals cells) with
        | none => rfl
        | some upper =>
          simp only [hq]
          exact getCol_putCol_ne df _ h
    · rw [if_neg h1]

theorem getCol_scaleStage_not_numeric (df : DF) {m : String}
    (hm : ¬ m ∈ numericCols) : getCol (scaleStage df) m = getCol df m := by
  unfold scaleStage
  by_cases h1 : ((scalerColsOf df).isEmpty) = true
  · rw [if_pos h1]
  · rw [if_neg h1]
    by_cases h2 : ((validColsOf df).isEmpty) = true
    · rw [if_pos h2]
    · rw [if_neg h2]
      by_cases h3 : (floatOkOf df) = true
      · rw [if_pos h3, getCol_mapCols, getCol_eq_findCol]
        cases hf : findCol df m with
        | none => rfl
        | some c =>
          have hname : c.name = m := findCol_name hf
          have hcont : ((validColsOf df).contains c.name) = false := by
            rw [hname]
            cases hc : (validColsOf df).contains m with
            | false => rfl
            | true =>
              exfalso
              have hmemV : m ∈ validColsOf df := List.mem_of_elem_eq_true hc
              have hmemS : m ∈ scalerColsOf df := (List.mem_filter.mp hmemV).1
              exact hm (List.mem_filter.mp hmemS).1
          simp only [Option.map_some']
          rw [hcont]
          simp
      · rw [if_neg h3]

theorem genreModeStage_isSome {df : DF} {cells : List Cell}
    (h : getCol df "GENRE" = some cells) :
    ∃ out, getCol (genreModeStage df) "GENRE" = some out ∧
      ∀ x ∈ out, x.isSome = true := by
  unfold genreModeStage
  simp only [h]
  cases hm : modeVal cells with
  | some m =>
    refine ⟨cells.map (fun c => some (c.getD m)), getCol_putCol_self df "GENRE" _, ?_⟩
    intro x hx
    rw [List.mem_map] at hx
    obtain ⟨a, _, rfl⟩ := hx
    rfl
  | none =>
    refine ⟨cells.map (fun c => some (c.getD (Val.str "Unknown"))),
      getCol_putCol_self df "GENRE" _, ?_⟩
    intro x hx
    rw [List.mem_map] at hx
    obtain ⟨a, _, rfl⟩ := hx
    rfl

/-- With a GENRE column present in the input, the full pipeline produces
a GENRE column with no missing entry. -/
theorem clean_genre_no_missing (df : DF) (cells : List Cell)
    (h : getCol df "GENRE" = some cells) :
    ∃ out, getCol (clean_dataframe df) "GENRE" = some out ∧
      ∀ x ∈ out, x.isSome = true := by
  have hmem : "GENRE" ∈ df.cols.map (fun c => c.name) := by
    rw [getCol_eq_findCol] at h
    cases hf : findCol df "GENRE" with
    | none => rw [hf] at h; exact Option.noConfusion h
    | some c =>
      rw [List.mem_map]
      exact ⟨c, findCol_mem hf, findCol_name hf⟩
  obtain ⟨cs1, h1⟩ := getCol_fromRows_of_mem (df.cols.map (fun c => c.name))
      (dedupRows (toRows df)) hmem
  have h1b : getCol (dropDuplicates df) "GENRE" = some cs1 := by
    rw [dropDuplicates_eq]
    exact h1
  have h2 : getCol (textNormStage (dropDuplicates df)) "GENRE"
      = some (cs1.map normCell) := by
    rw [getCol_textNormStage _ (by decide), h1b]
    rfl
  have h3 : getCol (yearStage (textNormStage (dropDuplicates df))) "GENRE"
      = some (cs1.map normCell) := by
    rw [getCol_yearStage_ne _ (by decide)]
    exact h2
  have h4 : getCol (votesStage (yearStage (textNormStage (dropDuplicates df))))
      "GENRE" = some (cs1.map normCell) := by
    rw [getCol_votesStage_ne _ (by decide)]
    exact h3
  have h5 : getCol (grossStage (votesStage (yearStage (textNormStage
      (dropDuplicates df))))) "GENRE" = some (cs1.map normCell) := by
    rw [getCol_grossStage_ne _ (by decide)]
    exact h4
  have h6 : getCol (medianFillStage (grossStage (votesStage (yearStage
      (textNormStage (dropDuplicates df)))))) "GENRE" = some (cs1.map normCell) := by
    rw [getCol_medianFillStage_ne _ (by decide)]
    exact h5
  obtain ⟨out7, h7, hall7⟩ := genreModeStage_isSome h6
  have h8 : getCol (featureStage (genreModeStage (medianFillStage (grossStage
      (votesStage (yearStage (textNormStage (dropDuplicates df)))))))) "GENRE"
      = some out7 := by
    rw [getCol_featureStage_ne _ (by decide) (by decide)]
    exact h7
  have h9 : getCol (clipRunTimeStage (featureStage (genreModeStage (medianFillStage
      (grossStage (votesStage (yearStage (textNormStage (dropDuplicates df)))))))))
      "GENRE" = some out7 := by
    rw [getCol_clipRunTimeStage_ne _ (by decide)]
    exact h8
  have h10 : getCol (scaleStage (clipRunTimeStage (featureStage (genreModeStage
      (medianFillStage (grossStage (votesStage (yearStage (textNormStage
        (dropDuplicates df)))))))))) "GENRE" = some out7 := by
    rw [getCol_scaleStage_not_numeric _ (by decide)]
    exact h9
  exact ⟨out7, h10, hall7⟩

/-- C2 (Categorical imputation): for a table with a GENRE column, the
mode-imputation stage fills every missing entry with a most frequent
non-missing value when one exists and with the literal text "Unknown"
when none can be determined (for instance a column that is entirely
missing), leaves non-missing entries unchanged, and leaves no missing
entry unfilled; moreover, after the full cleaning pipeline a present
GENRE column has no missing entry at all. -/
theorem genre_mode_imputation (df : DF) (cells : List Cell)
    (h : getCol df "GENRE" = some cells) :
    ∃ cells2, getCol (genreModeStage df) "GENRE" = some cells2 ∧
      cells2.length = cells.length ∧
      (∀ x ∈ cells2, x.isSome = true) ∧
      (∀ i, i < cells.length → cells.getD i none ≠ none →
        cells2.getD i none = cells.getD i none) ∧
      ((∃ v, some v ∈ cells) →
        ∃ m, some m ∈ cells ∧
          (∀ v, some v ∈ cells →
            countVal (cells.filterMap id) v ≤ countVal (cells.filterMap id) m) ∧
          ∀ i, i < cells.length → cells.getD i none = none →
            cells2.getD i none = some m) ∧
      ((¬ ∃ v, some v ∈ cells) →
        ∀ i, i < cells.length → cells.getD i none = none →
          cells2.getD i none = some (Val.str "Unknown")) ∧
      (∀ (df2 : DF) (cells0 : List Cell), getCol df2 "GENRE" = some cells0 →
        ∃ out, getCol (clean_dataframe df2) "GENRE" = some out ∧
          ∀ x ∈ out, x.isSome = true) := by
  unfold genreModeStage
  simp only [h]
  cases hm : modeVal cells with
  | some m =>
    simp only [hm]
    refine ⟨cells.map (fun c => some (c.getD m)), getCol_putCol_self df "GENRE" _,
      by simp, ?_, ?_, ?_, ?_, clean_genre_no_missing⟩
    · intro x hx
      rw [List.mem_map] at hx
      obtain ⟨a, _, rfl⟩ := hx
      rfl
    · intro i hi hne
      rw [getD_map_of_lt _ cells i none none hi]
      cases hc : cells.getD i none with
      | none => exact absurd hc hne
      | some v => rfl
    · intro _
      obtain ⟨hmem, hall⟩ := modeVal_some_spec hm
      refine ⟨m, (mem_filterMap_id_iff cells m).mp hmem, ?_, ?_⟩
      · intro v hv
        exact hall v ((mem_filterMap_id_iff cells v).mpr hv)
      · intro i hi hnone
        rw [getD_map_of_lt _ cells i none none hi, hnone]
        rfl
    · intro hno
      exfalso
      obtain ⟨hmem, _⟩ := modeVal_some_spec hm
      exact hno ⟨m, (mem_filterMap_id_iff cells m).mp hmem⟩
  | none =>
    simp only [hm]
    refine ⟨cells.map (fun c => some (c.getD (Val.str "Unknown"))),
      getCol_putCol_self df "GENRE" _, by simp, ?_, ?_, ?_, ?_, clean_genre_no_missing⟩
    · intro x hx
      rw [List.mem_map] at hx
      obtain ⟨a, _, rfl⟩ := hx
      rfl
    · intro i hi hne
      rw [getD_map_of_lt _ cells i none none hi]
      cases hc : cells.getD i none with
      | none => exact absurd hc hne
      | some v => rfl
    · intro hex
      exfalso
      obtain ⟨v, hv⟩ := hex
      have : v ∈ cells.filterMap id := (mem_filterMap_id_iff cells v).mpr hv
      rw [(modeVal_none_iff cells).mp hm] at this
      exact absurd this (List.not_mem_nil v)
    · intro _ i hi hnone
      rw [getD_map_of_lt _ cells i none none hi, hnone]
      rfl

/-- Witness for C2 at a concrete table with one missing GENRE cell. -/
theorem genre_mode_imputation_witness :
    getCol (DF.mk [Col.mk "GENRE"
        [some (Val.str "Drama"), none, some (Val.str "Drama"),
         some (Val.str "Action")]]) "GENRE"
      = some [some (Val.str "Drama"), none, some (Val.str "Drama"),
          some (Val.str "Action")] ∧
    (∃ cells2, getCol (genreModeStage (DF.mk [Col.mk "GENRE"
        [some (Val.str "Drama"), none, some (Val.str "Drama"),
         some (Val.str "Action")]])) "GENRE" = some cells2 ∧
      cells2.length = 4 ∧
      (∀ x ∈ cells2, x.isSome = true)) := by
  constructor
  · decide
  · obtain ⟨cells2, h1, h2, h3, _⟩ := genre_mode_imputation (DF.mk [Col.mk "GENRE"
        [some (Val.str "Drama"), none, some (Val.str "Drama"),
         some (Val.str "Action")]])
      [some (Val.str "Drama"), none, some (Val.str "Drama"), some (Val.str "Action")]
      (by decide)
    exact ⟨cells2, h1, by rw [h2]; rfl, h3⟩

end MoviesCleaning
